import Mathlib

/-!
Shallow embedding of the zeek-viz in-memory session store and its derived-view
aggregation engine, translated from `src/handlers/api.go` and the `models`
package (`src/unnamed/part_001`).

Modelling conventions:
* Go `map[K]V` values are represented as insertion-ordered association lists
  `List (K × V)`; all reachable maps have pairwise-distinct keys, and lookup /
  in-place update / insert are given by `mapLookup`, `mapUpdate`, `mapInsert`.
* Go `float64` timestamps, durations and weights are modelled as `ℚ`; the Go
  conversion `int64(x)` (truncation toward zero) is `qTrunc`.
* Go `int` / `int64` are modelled as `ℤ`; Go integer division `/` truncates
  toward zero and is modelled with `Int.tdiv`.
* `encoding/json` is modelled by the `JSONValue` tree: a decoded
  `map[string]any` is a `List (String × JSONValue)` (later duplicate keys win,
  as in a Go map, see `getField`), and input lines are pre-classified by the
  `InputLine` sum exactly along the three branches of
  `LoadConnectionsFromReader` (whitespace-only line / `json.Unmarshal` error /
  decoded JSON object).
-/

namespace ZeekViz

/-! ### Embedding: data model, store, filters, aggregators, and the
concrete inputs referenced by the verification below -/

/-- Lookup in an association list (first match; reachable maps have unique
keys, so this agrees with Go map indexing). -/
def mapLookup {κ α : Type} [DecidableEq κ] (m : List (κ × α)) (k : κ) : Option α :=
  match m with
  | [] => none
  | (k', v) :: rest => if k = k' then some v else mapLookup rest k

/-- In-place update of the entry with key `k` (Go `m[k].field = ...` /
`m[k] = ...` on an existing key). -/
def mapUpdate {κ α : Type} [DecidableEq κ] (m : List (κ × α)) (k : κ) (f : α → α) :
    List (κ × α) :=
  m.map (fun p => if p.1 = k then (p.1, f p.2) else p)

/-- Go `m[k] = v`: replace the entry if the key is present, otherwise append. -/
def mapInsert {κ α : Type} [DecidableEq κ] (m : List (κ × α)) (k : κ) (v : α) :
    List (κ × α) :=
  if (mapLookup m k).isSome then mapUpdate m k (fun _ => v) else m ++ [(k, v)]

/-- The Go upsert idiom `if _, ok := m[k]; !ok { m[k] = init }; mutate m[k]`:
ensure the key is present (with `init`), then mutate in place with `f`. -/
def mapUpsert {κ α : Type} [DecidableEq κ] (m : List (κ × α)) (k : κ) (init : α)
    (f : α → α) : List (κ × α) :=
  let m' := if (mapLookup m k).isSome then m else m ++ [(k, init)]
  mapUpdate m' k f

/-- Go `int64(x)` for `x : float64`: truncation toward zero. -/
def qTrunc (q : ℚ) : ℤ := if 0 ≤ q then ⌊q⌋ else ⌈q⌉

/-- A decoded JSON value, as produced by `json.Unmarshal` into `any`
(JSON numbers always decode to `float64`, here `ℚ`). -/
inductive JSONValue : Type where
  | null : JSONValue
  | bool : Bool → JSONValue
  | num : ℚ → JSONValue
  | str : String → JSONValue
  | arr : List JSONValue → JSONValue
  | obj : List (String × JSONValue) → JSONValue

/-- `models.Connection`: one Zeek connection log entry. Field order follows
the Go struct. -/
structure Connection : Type where
  Timestamp : ℚ
  UID : String
  OrigHost : String
  OrigPort : ℤ
  RespHost : String
  RespPort : ℤ
  Protocol : String
  Service : String
  Duration : ℚ
  OrigBytes : ℤ
  RespBytes : ℤ
  ConnState : String
  LocalOrig : Bool
  LocalResp : Bool
  MissedBytes : ℤ
  History : String
  OrigPackets : ℤ
  OrigIPBytes : ℤ
  RespPackets : ℤ
  RespIPBytes : ℤ
  IPProtocol : ℤ
deriving DecidableEq

/-- The Go zero value `Connection{}` (start state of `UnmarshalConnection`). -/
def emptyConnection : Connection :=
  ⟨0, "", "", 0, "", 0, "", "", 0, 0, 0, "", false, false, 0, "", 0, 0, 0, 0, 0⟩

/-- `(*Connection).TotalBytes`: sum of orig and resp byte counts. -/
def Connection.TotalBytes (c : Connection) : ℤ := c.OrigBytes + c.RespBytes

/-- Indexing the decoded `map[string]any`: in a Go map built by
`json.Unmarshal`, a later duplicate key overwrites an earlier one, so the
last binding wins. -/
def getField (raw : List (String × JSONValue)) (k : String) : Option JSONValue :=
  raw.foldl (fun acc p => if p.1 = k then some p.2 else acc) none

/-- `models.parseStringFields`: each string field is set iff the type
assertion `raw[k].(string)` succeeds; the assignments touch pairwise distinct
fields, so the Go statement sequence equals this simultaneous update. -/
def parseStringFields (raw : List (String × JSONValue)) (c : Connection) :
    Connection :=
  { c with
    UID := match getField raw "uid" with
      | some (.str s) => s | _ => c.UID,
    OrigHost := match getField raw "id.orig_h" with
      | some (.str s) => s | _ => c.OrigHost,
    RespHost := match getField raw "id.resp_h" with
      | some (.str s) => s | _ => c.RespHost,
    Protocol := match getField raw "proto" with
      | some (.str s) => s | _ => c.Protocol,
    Service := match getField raw "service" with
      | some (.str s) => s | _ => c.Service,
    ConnState := match getField raw "conn_state" with
      | some (.str s) => s | _ => c.ConnState,
    History := match getField raw "history" with
      | some (.str s) => s | _ => c.History }

/-- `models.parseTimestampAndPorts` (type assertions `.(float64)`; ports and
`ip_proto` are truncated with `int(...)`). -/
def parseTimestampAndPorts (raw : List (String × JSONValue)) (c : Connection) :
    Connection :=
  { c with
    Timestamp := match getField raw "ts" with
      | some (.num q) => q | _ => c.Timestamp,
    OrigPort := match getField raw "id.orig_p" with
      | some (.num q) => qTrunc q | _ => c.OrigPort,
    RespPort := match getField raw "id.resp_p" with
      | some (.num q) => qTrunc q | _ => c.RespPort,
    IPProtocol := match getField raw "ip_proto" with
      | some (.num q) => qTrunc q | _ => c.IPProtocol }

/-- `models.parseByteFields`. -/
def parseByteFields (raw : List (String × JSONValue)) (c : Connection) :
    Connection :=
  { c with
    OrigBytes := match getField raw "orig_bytes" with
      | some (.num q) => qTrunc q | _ => c.OrigBytes,
    RespBytes := match getField raw "resp_bytes" with
      | some (.num q) => qTrunc q | _ => c.RespBytes,
    MissedBytes := match getField raw "missed_bytes" with
      | some (.num q) => qTrunc q | _ => c.MissedBytes,
    OrigIPBytes := match getField raw "orig_ip_bytes" with
      | some (.num q) => qTrunc q | _ => c.OrigIPBytes,
    RespIPBytes := match getField raw "resp_ip_bytes" with
      | some (.num q) => qTrunc q | _ => c.RespIPBytes }

/-- `models.parsePacketFields`. -/
def parsePacketFields (raw : List (String × JSONValue)) (c : Connection) :
    Connection :=
  { c with
    OrigPackets := match getField raw "orig_pkts" with
      | some (.num q) => qTrunc q | _ => c.OrigPackets,
    RespPackets := match getField raw "resp_pkts" with
      | some (.num q) => qTrunc q | _ => c.RespPackets }

/-- `models.parseIntegerFields`. -/
def parseIntegerFields (raw : List (String × JSONValue)) (c : Connection) :
    Connection :=
  parsePacketFields raw (parseByteFields raw (parseTimestampAndPorts raw c))

/-- `models.parseFloatFields`. -/
def parseFloatFields (raw : List (String × JSONValue)) (c : Connection) :
    Connection :=
  { c with
    Duration := match getField raw "duration" with
      | some (.num q) => q | _ => c.Duration }

/-- `models.parseBooleanFields`. -/
def parseBooleanFields (raw : List (String × JSONValue)) (c : Connection) :
    Connection :=
  { c with
    LocalOrig := match getField raw "local_orig" with
      | some (.bool b) => b | _ => c.LocalOrig,
    LocalResp := match getField raw "local_resp" with
      | some (.bool b) => b | _ => c.LocalResp }

/-- `models.UnmarshalConnection` after a successful `json.Unmarshal` into
`map[string]any`: start from the zero value and extract each field
independently. -/
def unmarshalConnection (raw : List (String × JSONValue)) : Connection :=
  parseBooleanFields raw
    (parseFloatFields raw
      (parseIntegerFields raw (parseStringFields raw emptyConnection)))

/-- One input line of `LoadConnectionsFromReader`, pre-classified along the
three branches of the Go loop body: `strings.TrimSpace(line) == ""`;
`json.Unmarshal` fails (not valid JSON, or valid JSON that is not an
object); or a successfully decoded JSON object. -/
inductive InputLine : Type where
  | blank : InputLine
  | invalid : InputLine
  | jsonObj : List (String × JSONValue) → InputLine

/-- Whether a line is a successfully decoded JSON object. -/
def isJSONObjLine : InputLine → Bool
  | .jsonObj _ => true
  | _ => false

/-- The loop body of `(*API).LoadConnectionsFromReader`: blank lines and
unmarshal failures are skipped (`continue`), decoded objects are appended. -/
def processLine : InputLine → Option Connection
  | .blank => none
  | .invalid => none
  | .jsonObj raw => some (unmarshalConnection raw)

/-- `(*API).LoadConnectionsFromReader` over the line sequence of the input. -/
def loadConnectionsFromReader (lines : List InputLine) : List Connection :=
  lines.filterMap processLine

/-- The literal patterns of `models.IsLocalIP` (named `localPrefixes` in the
source). Each is tested with `len(ip) >= len(p) && ip[:len(p)] == p`, i.e. a
byte-level starts-with test — including the last entry `"::1"`. -/
def localPatterns : List String :=
  ["192.168.",
   "10.",
   "172.16.", "172.17.", "172.18.", "172.19.",
   "172.20.", "172.21.", "172.22.", "172.23.",
   "172.24.", "172.25.", "172.26.", "172.27.",
   "172.28.", "172.29.", "172.30.", "172.31.",
   "127.",
   "fe80::",
   "::1"]

/-- `models.IsLocalIP`. All patterns are ASCII, so the Go byte-slice
comparison `ip[:len(p)] == p` coincides with a character-list starts-with
test on the UTF-8 decoding. -/
def isLocalIP (ip : String) : Bool :=
  if ip = "" then false
  else localPatterns.any (fun p => p.data.isPrefixOf ip.data)

/-- Right rotation of a 32-bit word (word = `Nat` below `2^32`). -/
def rotr32 (x n : Nat) : Nat := ((x >>> n) ||| (x <<< (32 - n))) % 4294967296

/-- SHA-256 round constants. -/
def sha256K : List Nat :=
  [1116352408, 1899447441, 3049323471, 3921009573, 961987163,
   1508970993, 2453635748, 2870763221, 3624381080, 310598401,
   607225278, 1426881987, 1925078388, 2162078206, 2614888103,
   3248222580, 3835390401, 4022224774, 264347078, 604807628,
   770255983, 1249150122, 1555081692, 1996064986, 2554220882,
   2821834349, 2952996808, 3210313671, 3336571891, 3584528711,
   113926993, 338241895, 666307205, 773529912, 1294757372,
   1396182291, 1695183700, 1986661051, 2177026350, 2456956037,
   2730485921, 2820302411, 3259730800, 3345764771, 3516065817,
   3600352804, 4094571909, 275423344, 430227734, 506948616,
   659060556, 883997877, 958139571, 1322822218, 1537002063,
   1747873779, 1955562222, 2024104815, 2227730452, 2361852424,
   2428436474, 2756734187, 3204031479, 3329325298]

/-- SHA-256 initial hash state. -/
def sha256H0 : List Nat :=
  [1779033703, 3144134277, 1013904242, 2773480762,
   1359893119, 2600822924, 528734635, 1541459225]

/-- Big-endian grouping of bytes into 32-bit words. -/
def bytesToWords : List Nat → List Nat
  | b0 :: b1 :: b2 :: b3 :: rest =>
    (((b0 * 256 + b1) * 256 + b2) * 256 + b3) :: bytesToWords rest
  | _ => []

/-- Extend the 16 block words to the 64-entry message schedule. -/
def sha256Schedule (ws : List Nat) : Array Nat :=
  (List.range 48).foldl
    (fun a i =>
      let t := i + 16
      let x15 := a.getD (t - 15) 0
      let x2 := a.getD (t - 2) 0
      let s0 := ((rotr32 x15 7) ^^^ (rotr32 x15 18)) ^^^ (x15 >>> 3)
      let s1 := ((rotr32 x2 17) ^^^ (rotr32 x2 19)) ^^^ (x2 >>> 10)
      a.push ((a.getD (t - 16) 0 + s0 + a.getD (t - 7) 0 + s1) % 4294967296))
    ws.toArray

/-- One SHA-256 compression of a 64-byte block into the running state. -/
def sha256Compress (hs : List Nat) (block : List Nat) : List Nat :=
  let w := sha256Schedule (bytesToWords block)
  match hs with
  | [h0, h1, h2, h3, h4, h5, h6, h7] =>
    let st := (List.range 64).foldl
      (fun (s : Nat × Nat × Nat × Nat × Nat × Nat × Nat × Nat) i =>
        let (a, b, c, d, e, f, g, h) := s
        let S1 := ((rotr32 e 6) ^^^ (rotr32 e 11)) ^^^ (rotr32 e 25)
        let ch := (e &&& f) ^^^ ((4294967295 - e) &&& g)
        let t1 := (h + S1 + ch + sha256K.getD i 0 + w.getD i 0) % 4294967296
        let S0 := ((rotr32 a 2) ^^^ (rotr32 a 13)) ^^^ (rotr32 a 22)
        let maj := ((a &&& b) ^^^ (a &&& c)) ^^^ (b &&& c)
        let t2 := (S0 + maj) % 4294967296
        ((t1 + t2) % 4294967296, a, b, c, (d + t1) % 4294967296, e, f, g))
      (h0, h1, h2, h3, h4, h5, h6, h7)
    match st with
    | (a, b, c, d, e, f, g, h) =>
      [(h0 + a) % 4294967296, (h1 + b) % 4294967296, (h2 + c) % 4294967296,
       (h3 + d) % 4294967296, (h4 + e) % 4294967296, (h5 + f) % 4294967296,
       (h6 + g) % 4294967296, (h7 + h) % 4294967296]
  | _ => hs

/-- SHA-256 padding: `0x80`, zeros to 56 mod 64, then the bit length as a
64-bit big-endian integer. -/
def sha256Pad (msg : List Nat) : List Nat :=
  let len := msg.length
  let bitLen := 8 * len
  let k := (119 - len % 64) % 64
  msg ++ [128] ++ List.replicate k 0 ++
    (List.range 8).map (fun i => (bitLen >>> (8 * (7 - i))) % 256)

/-- Split a byte sequence into 64-byte chunks (structural recursion on a
fuel bounded by the length, so that the definition reduces). -/
def chunks64Go : Nat → List Nat → List (List Nat)
  | 0, _ => []
  | _, [] => []
  | fuel + 1, b :: rest =>
    (b :: rest).take 64 :: chunks64Go fuel ((b :: rest).drop 64)

/-- Split a byte sequence into 64-byte chunks. -/
def chunks64 (l : List Nat) : List (List Nat) := chunks64Go l.length l

/-- `sha256.Sum256` over a byte sequence, yielding the 32 digest bytes. -/
def sha256Bytes (msg : List Nat) : List Nat :=
  let hs := (chunks64 (sha256Pad msg)).foldl sha256Compress sha256H0
  hs.flatMap (fun h => [(h >>> 24) % 256, (h >>> 16) % 256, (h >>> 8) % 256, h % 256])

/-- A lowercase hexadecimal digit. -/
def hexDigit (n : Nat) : Char :=
  if n < 10 then Char.ofNat (48 + n) else Char.ofNat (87 + n)

/-- `hex.EncodeToString` over a byte sequence. -/
def bytesToHex (bs : List Nat) : String :=
  String.mk (bs.flatMap (fun b => [hexDigit (b / 16), hexDigit (b % 16)]))

/-- The UTF-8 encoding of one character. -/
def utf8EncodeCharNat (c : Char) : List Nat :=
  let n := c.toNat
  if n < 128 then [n]
  else if n < 2048 then [192 + n / 64, 128 + n % 64]
  else if n < 65536 then
    [224 + n / 4096, 128 + (n / 64) % 64, 128 + n % 64]
  else
    [240 + n / 262144, 128 + (n / 4096) % 64, 128 + (n / 64) % 64, 128 + n % 64]

/-- The UTF-8 bytes of a string (`[]byte(s)` in Go). -/
def strBytes (s : String) : List Nat :=
  s.data.flatMap utf8EncodeCharNat

/-- `(*API).generateFileID`: first 16 hex characters of
`sha256(filename + "_" + uploadTime)`. -/
def generateFileID (filename : String) (uploadTime : ℤ) : String :=
  let data := filename ++ "_" ++ toString uploadTime
  String.mk ((bytesToHex (sha256Bytes (strBytes data))).data.take 16)

/-- `handlers.FileData`: one uploaded file with its parsed connections. -/
structure FileData : Type where
  Filename : String
  UploadTime : ℤ
  Size : ℤ
  Connections : List Connection
deriving DecidableEq

/-- The store-relevant state of `handlers.API`. -/
structure API : Type where
  files : List (String × FileData)
  currentFileID : String
  logPath : String
deriving DecidableEq

/-- `handlers.NewAPI`. -/
def NewAPI (logPath : String) : API := ⟨[], "", logPath⟩

/-- The store mutation performed by a successful `(*API).UploadFile`
(`uploadTime` is the `time.Now().Unix()` second at ingestion; `lines` are the
lines of the uploaded file): parse, generate the id, store the file data and
make it current. -/
def uploadFile (a : API) (filename : String) (size uploadTime : ℤ)
    (lines : List InputLine) : API :=
  let connections := loadConnectionsFromReader lines
  let fileID := generateFileID filename uploadTime
  let fileData : FileData := ⟨filename, uploadTime, size, connections⟩
  { a with files := mapInsert a.files fileID fileData, currentFileID := fileID }

/-- The client-error outcomes of `(*API).DeleteFile`, in source order:
`"File ID is required"` (400), `"File not found"` (404),
`"Cannot delete the only remaining file"` (400). -/
inductive DeleteError : Type where
  | fileIDRequired : DeleteError
  | fileNotFound : DeleteError
  | cannotDeleteOnlyFile : DeleteError
deriving DecidableEq

/-- `(*API).DeleteFile` on a parsed request body: validation checks in source
order, then removal; if the deleted file was current, the current pointer is
reassigned to the first remaining entry (Go takes the first key produced by
map iteration; any remaining key is reachable, the model picks the head). -/
def deleteFile (a : API) (fileID : String) : Except DeleteError API :=
  if fileID = "" then .error .fileIDRequired
  else if (mapLookup a.files fileID).isNone then .error .fileNotFound
  else if a.files.length ≤ 1 then .error .cannotDeleteOnlyFile
  else
    let remaining := a.files.filter (fun p => p.1 ≠ fileID)
    let newCurrent :=
      if a.currentFileID = fileID then
        match remaining with
        | [] => a.currentFileID
        | p :: _ => p.1
      else a.currentFileID
    .ok { a with files := remaining, currentFileID := newCurrent }

/-- `(*API).getCurrentConnections`. -/
def getCurrentConnections (a : API) : List Connection :=
  if a.currentFileID = "" then []
  else
    match mapLookup a.files a.currentFileID with
    | none => []
    | some fd => fd.Connections

/-- Modelled behavior of `strconv.ParseInt(s, 10, 64)`: an optional single
sign, then a nonempty run of ASCII digits, with an `int64` range check
(out-of-range input is an error, hence `none`). -/
def parseInt64 (s : String) : Option ℤ :=
  let signAndDigits : Bool × List Char :=
    match s.data with
    | '+' :: rest => (false, rest)
    | '-' :: rest => (true, rest)
    | l => (false, l)
  let ds := signAndDigits.2
  if ds = [] then none
  else if ds.all Char.isDigit then
    let n : ℕ := ds.foldl (fun acc c => acc * 10 + (c.toNat - 48)) 0
    let v : ℤ := if signAndDigits.1 then -(n : ℤ) else (n : ℤ)
    if v < -(2 ^ 63) ∨ 2 ^ 63 - 1 < v then none else some v
  else none

/-- `handlers.applyTimeFilter`: a missing or unparseable bound disables the
filter; otherwise keep records whose truncated timestamp lies in
`[start, end]`. -/
def applyTimeFilter (connections : List Connection) (startTime endTime : String) :
    List Connection :=
  if startTime = "" ∨ endTime = "" then connections
  else
    match parseInt64 startTime, parseInt64 endTime with
    | some s, some e =>
      connections.filter (fun c => decide (s ≤ qTrunc c.Timestamp ∧ qTrunc c.Timestamp ≤ e))
    | _, _ => connections

/-- `handlers.allProtocol`. -/
def allProtocol : String := "all"

/-- `handlers.applyProtocolFilter`. -/
def applyProtocolFilter (connections : List Connection) (protocol : String) :
    List Connection :=
  if protocol = "" ∨ protocol = allProtocol then connections
  else connections.filter (fun c => decide (c.Protocol = protocol))

/-- `handlers.applyConnStateFilter` (note: the sentinel constant compared
against is the same `allProtocol` string `"all"`). -/
def applyConnStateFilter (connections : List Connection) (connState : String) :
    List Connection :=
  if connState = "" ∨ connState = allProtocol then connections
  else connections.filter (fun c => decide (c.ConnState = connState))

/-- The filter pipeline as applied by `(*API).GetConnections` /
`(*API).GetNodes`: time, then protocol, then connection state. -/
def filterConnections (conns : List Connection)
    (startTime endTime protocol connState : String) : List Connection :=
  applyConnStateFilter
    (applyProtocolFilter (applyTimeFilter conns startTime endTime) protocol)
    connState

/-- `models.Node` (the layout coordinates `X`, `Y` are never written by the
aggregator and stay at their zero value). -/
structure Node : Type where
  ID : String
  Label : String
  Connections : ℤ
  TotalBytes : ℤ
  IsLocal : Bool
  X : ℚ
  Y : ℚ
deriving DecidableEq

/-- `models.Edge`. -/
structure Edge : Type where
  Source : String
  Target : String
  Protocol : String
  Service : String
  Count : ℤ
  TotalBytes : ℤ
  Weight : ℚ
deriving DecidableEq

/-- `handlers.processNode`: upsert of the host into the node accumulator. -/
def processNode (nodeMap : List (String × Node)) (host : String)
    (totalBytes : ℤ) : List (String × Node) :=
  mapUpsert nodeMap host
    { ID := host, Label := host, Connections := 0, TotalBytes := 0,
      IsLocal := isLocalIP host, X := 0, Y := 0 }
    (fun n => { n with Connections := n.Connections + 1,
                       TotalBytes := n.TotalBytes + totalBytes })

/-- The edge accumulator key `fmt.Sprintf("%s-%s-%s", OrigHost, RespHost,
Protocol)`. -/
def edgeKey (conn : Connection) : String :=
  conn.OrigHost ++ "-" ++ conn.RespHost ++ "-" ++ conn.Protocol

/-- `handlers.processEdge`: upsert of the connection into the edge
accumulator; the entry is created from the first-seen record, every sighting
increments the count, adds the record's total bytes and recomputes the weight
from the new byte total (`bytesScaleFactor = 1000.0`). -/
def processEdge (edgeMap : List (String × Edge)) (conn : Connection) :
    List (String × Edge) :=
  mapUpsert edgeMap (edgeKey conn)
    { Source := conn.OrigHost, Target := conn.RespHost,
      Protocol := conn.Protocol, Service := conn.Service,
      Count := 0, TotalBytes := 0, Weight := 0 }
    (fun e => { e with Count := e.Count + 1,
                       TotalBytes := e.TotalBytes + conn.TotalBytes,
                       Weight := ((e.TotalBytes + conn.TotalBytes : ℤ) : ℚ) / 1000 })

/-- The node accumulator of `handlers.buildNodesAndEdges` after the record
pass. -/
def nodeMapOf (connections : List Connection) : List (String × Node) :=
  connections.foldl
    (fun m conn =>
      processNode (processNode m conn.OrigHost conn.TotalBytes)
        conn.RespHost conn.TotalBytes)
    []

/-- The edge accumulator of `handlers.buildNodesAndEdges` after the record
pass. -/
def edgeMapOf (connections : List Connection) : List (String × Edge) :=
  connections.foldl processEdge []

/-- `handlers.buildNodesAndEdges`: single pass building both accumulators,
then conversion of the maps to value sequences. Go enumerates the two maps in
unspecified order when converting; the model emits insertion order (the
determinism claim quantifies over arbitrary enumerations instead). -/
def buildNodesAndEdges (connections : List Connection) :
    List Node × List Edge :=
  let maps := connections.foldl
    (fun (acc : List (String × Node) × List (String × Edge)) conn =>
      (processNode (processNode acc.1 conn.OrigHost conn.TotalBytes)
         conn.RespHost conn.TotalBytes,
       processEdge acc.2 conn))
    ([], [])
  (maps.1.map (fun p => p.2), maps.2.map (fun p => p.2))

/-- `models.TimelinePoint` (the optional `Protocol` / `Connections` fields
are never populated by `GetTimeline` and are omitted). -/
structure TimelinePoint : Type where
  Timestamp : ℤ
  Count : ℤ
  Bytes : ℤ
deriving DecidableEq

/-- `models.TimelineData`. -/
structure TimelineData : Type where
  Points : List TimelinePoint
  Start : ℤ
  End : ℤ
deriving DecidableEq

/-- The bucket of a record: `(int64(conn.Timestamp) / bucketSize) * bucketSize`
with `bucketSize = timelineBucketSec = 10`; Go integer division truncates
toward zero (`Int.tdiv`). -/
def bucketOf (conn : Connection) : ℤ := (qTrunc conn.Timestamp).tdiv 10 * 10

/-- The loop body of the bucket-population pass of `GetTimeline`. -/
def bucketStep (m : List (ℤ × TimelinePoint)) (conn : Connection) :
    List (ℤ × TimelinePoint) :=
  let bucket := bucketOf conn
  match mapLookup m bucket with
  | some _ =>
    mapUpdate m bucket
      (fun p => { p with Count := p.Count + 1,
                         Bytes := p.Bytes + conn.TotalBytes })
  | none => m ++ [(bucket, { Timestamp := bucket, Count := 1,
                             Bytes := conn.TotalBytes })]

/-- Sorting of connections by timestamp (`sort.Slice` with
`Timestamp[i] < Timestamp[j]`; any ordering of equal timestamps leaves every
output of `GetTimeline` unchanged, since buckets only accumulate sums). -/
def tsLE (a b : Connection) : Prop := a.Timestamp ≤ b.Timestamp

instance : DecidableRel tsLE := fun a b =>
  inferInstanceAs (Decidable (a.Timestamp ≤ b.Timestamp))

instance : IsTotal Connection tsLE := ⟨fun a b => le_total a.Timestamp b.Timestamp⟩

instance : IsTrans Connection tsLE := ⟨fun _ _ _ h1 h2 => le_trans h1 h2⟩

/-- Sorting of timeline points by bucket timestamp (`sort.Slice` with
`Timestamp[i] < Timestamp[j]`; all bucket timestamps are distinct). -/
def ptLE (a b : TimelinePoint) : Prop := a.Timestamp ≤ b.Timestamp

instance : DecidableRel ptLE := fun a b =>
  inferInstanceAs (Decidable (a.Timestamp ≤ b.Timestamp))

instance : IsTotal TimelinePoint ptLE := ⟨fun a b => le_total a.Timestamp b.Timestamp⟩

instance : IsTrans TimelinePoint ptLE := ⟨fun _ _ _ h1 h2 => le_trans h1 h2⟩

/-- The bucket accumulator of `GetTimeline` over the sorted records. -/
def timelineMapOf (connections : List Connection) : List (ℤ × TimelinePoint) :=
  (List.insertionSort tsLE connections).foldl bucketStep []

/-- `(*API).GetTimeline` with the bucket-map enumeration order made explicit:
`enum` stands for the sequence Go obtains by ranging over `timelineMap`
(some permutation of the accumulated points). Start/end are the truncated
timestamps of the first and last records in sorted order. -/
def getTimelineWith (connections : List Connection)
    (enum : List TimelinePoint) : TimelineData :=
  if connections.isEmpty then { Points := [], Start := 0, End := 0 }
  else
    let sortedConns := List.insertionSort tsLE connections
    let startTime := qTrunc ((sortedConns.headD emptyConnection).Timestamp)
    let endTime := qTrunc ((sortedConns.getLastD emptyConnection).Timestamp)
    { Points := List.insertionSort ptLE enum,
      Start := startTime, End := endTime }

/-- `(*API).GetTimeline` (deterministic instance: insertion-order
enumeration of the bucket accumulator). -/
def getTimeline (connections : List Connection) : TimelineData :=
  getTimelineWith connections ((timelineMapOf connections).map (fun p => p.2))

/-- The seven return values of `handlers.processConnectionStats` (the Go
`map[string]int` / `map[string]bool` results are association lists / the
key list, in first-insertion order). -/
structure ConnStats : Type where
  protocols : List (String × ℤ)
  services : List (String × ℤ)
  connStates : List (String × ℤ)
  uniqueIPs : List String
  totalBytes : ℤ
  startTime : ℚ
  endTime : ℚ
deriving DecidableEq

/-- Go `m[k]++` on `map[string]int`: a missing key reads as 0. -/
def bumpCount (m : List (String × ℤ)) (k : String) : List (String × ℤ) :=
  mapUpsert m k 0 (fun n => n + 1)

/-- Go `set[k] = true` on `map[string]bool`, viewed as its key list. -/
def addIP (ips : List String) (h : String) : List String :=
  if h ∈ ips then ips else ips ++ [h]

/-- The loop body of `processConnectionStats`. -/
def statsStep (s : ConnStats) (conn : Connection) : ConnStats :=
  { protocols := bumpCount s.protocols conn.Protocol,
    services := if conn.Service = "" then s.services
                else bumpCount s.services conn.Service,
    connStates := bumpCount s.connStates conn.ConnState,
    uniqueIPs := addIP (addIP s.uniqueIPs conn.OrigHost) conn.RespHost,
    totalBytes := s.totalBytes + conn.TotalBytes,
    startTime := if s.startTime = -1 ∨ conn.Timestamp < s.startTime
                 then conn.Timestamp else s.startTime,
    endTime := if s.endTime = -1 ∨ s.endTime < conn.Timestamp
               then conn.Timestamp else s.endTime }

/-- `handlers.processConnectionStats`: single pass with `startTime` and
`endTime` initialised to the sentinel `-1`. -/
def processConnectionStats (connections : List Connection) : ConnStats :=
  connections.foldl statsStep
    { protocols := [], services := [], connStates := [], uniqueIPs := [],
      totalBytes := 0, startTime := -1, endTime := -1 }

/-- The statistics assembled by `(*API).GetStats` (the fields of the JSON
response computed from the current records; `duration = end - start`). -/
structure StatsSummary : Type where
  totalConnections : ℤ
  protocols : List (String × ℤ)
  services : List (String × ℤ)
  connStates : List (String × ℤ)
  totalBytes : ℤ
  uniqueIPCount : ℤ
  timeRangeStart : ℚ
  timeRangeEnd : ℚ
  timeRangeDuration : ℚ
deriving DecidableEq

/-- `(*API).GetStats` on the current records. -/
def getStats (a : API) : StatsSummary :=
  let connections := getCurrentConnections a
  let s := processConnectionStats connections
  { totalConnections := connections.length,
    protocols := s.protocols,
    services := s.services,
    connStates := s.connStates,
    totalBytes := s.totalBytes,
    uniqueIPCount := s.uniqueIPs.length,
    timeRangeStart := s.startTime,
    timeRangeEnd := s.endTime,
    timeRangeDuration := s.endTime - s.startTime }

/-- First record of the spec's worked example:
`{ts:100, proto:"tcp", orig_h:"A", resp_h:"B", orig_bytes:10, resp_bytes:0,
conn_state:"SF"}`. -/
def exConn1 : Connection :=
  { emptyConnection with
    Timestamp := 100, OrigHost := "A", RespHost := "B",
    Protocol := "tcp", OrigBytes := 10, RespBytes := 0, ConnState := "SF" }

/-- Second record of the spec's worked example (`ts:105`, `orig_bytes:5`). -/
def exConn2 : Connection :=
  { emptyConnection with
    Timestamp := 105, OrigHost := "A", RespHost := "B",
    Protocol := "tcp", OrigBytes := 5, RespBytes := 0, ConnState := "SF" }

/-- Modelled from the claim's words: local means starting with one of the
listed patterns, except that `"::1"` is required to be an exact literal
match. -/
def isLocalClaimedC8 (ip : String) : Bool :=
  (["192.168.",
    "10.",
    "172.16.", "172.17.", "172.18.", "172.19.",
    "172.20.", "172.21.", "172.22.", "172.23.",
    "172.24.", "172.25.", "172.26.", "172.27.",
    "172.28.", "172.29.", "172.30.", "172.31.",
    "127.",
    "fe80::"].any (fun p => p.data.isPrefixOf ip.data))
  || ip = "::1"

/-- Modelled from the amended claim's words: local means starting with one of
the listed patterns, where `"::1"` too is a starts-with test. -/
def isLocalAmendedC8 (ip : String) : Bool :=
  ["192.168.",
   "10.",
   "172.16.", "172.17.", "172.18.", "172.19.",
   "172.20.", "172.21.", "172.22.", "172.23.",
   "172.24.", "172.25.", "172.26.", "172.27.",
   "172.28.", "172.29.", "172.30.", "172.31.",
   "127.",
   "fe80::",
   "::1"].any (fun p => p.data.isPrefixOf ip.data)

/-- The store after one ingest of `conn.log` at second 7 into a fresh store. -/
def apiOnceC5 : API := uploadFile (NewAPI "") "conn.log" 0 7 []

/-- The store after ingesting the same source name again within the same
second. -/
def apiTwiceC5 : API := uploadFile apiOnceC5 "conn.log" 0 7 []

/-- The key list of an association map. -/
def keysOf {κ α : Type} (m : List (κ × α)) : List κ := m.map Prod.fst

/-- A two-session store with distinct ids and a valid current pointer. -/
def apiC1 : API :=
  ⟨[("a", ⟨"one.log", 0, 0, []⟩), ("b", ⟨"two.log", 1, 0, []⟩)], "a", ""⟩

/-- Whether the Go type assertion `raw[k].(string)` succeeds. -/
def isStrVal : Option JSONValue → Bool
  | some (JSONValue.str _) => true
  | _ => false

/-- Whether the Go type assertion `raw[k].(float64)` succeeds. -/
def isNumVal : Option JSONValue → Bool
  | some (JSONValue.num _) => true
  | _ => false

/-- Whether the Go type assertion `raw[k].(bool)` succeeds. -/
def isBoolVal : Option JSONValue → Bool
  | some (JSONValue.bool _) => true
  | _ => false

/-- A decoded object whose recognized fields all have mismatched JSON types. -/
def rawC2 : List (String × JSONValue) :=
  [("proto", JSONValue.num 6), ("orig_bytes", JSONValue.str "ten"),
   ("local_orig", JSONValue.num 1), ("ts", JSONValue.str "yesterday")]

/-- The records of a record set falling into bucket `b`. -/
def bucketMatches (b : ℤ) (conns : List Connection) : List Connection :=
  conns.filter (fun c => decide (bucketOf c = b))

/-- The accumulated point of one bucket: count and byte total of exactly the
records falling into it. -/
def bucketPointOf (conns : List Connection) (b : ℤ) : TimelinePoint :=
  { Timestamp := b,
    Count := ((bucketMatches b conns).length : ℤ),
    Bytes := ((bucketMatches b conns).map Connection.TotalBytes).sum }

/-- Modelled from the claim's words: the bucket as mathematical floor
division, `floor(truncated-timestamp / 10) * 10` (`Int.fdiv` rounds toward
negative infinity, i.e. is floor division). -/
def bucketClaimedC3 (conn : Connection) : ℤ :=
  (qTrunc conn.Timestamp).fdiv 10 * 10

/-- A record with a negative timestamp. -/
def cNegC3 : Connection := { emptyConnection with Timestamp := -5 }

/-- A string free of the `'-'` separator used by the edge key. -/
def dashFree (s : String) : Prop := ('-' : Char) ∉ s.data

instance : ∀ s : String, Decidable (dashFree s) := fun s =>
  inferInstanceAs (Decidable (('-' : Char) ∉ s.data))

/-- The records of a record set sharing the edge key `k`. -/
def edgeMatches (k : String) (conns : List Connection) : List Connection :=
  conns.filter (fun c => decide (edgeKey c = k))

/-- A record whose origin host itself contains the `'-'` separator. -/
def cDashA : Connection :=
  { emptyConnection with OrigHost := "a-b", RespHost := "c", Protocol := "tcp" }

/-- A record with a different (origin, responder) pair but the same dash-joined
edge key as `cDashA`. -/
def cDashB : Connection :=
  { emptyConnection with OrigHost := "a", RespHost := "b-c", Protocol := "tcp" }

/-- Strict ordering of timeline points by bucket timestamp. -/
def ptLT (a b : TimelinePoint) : Prop := a.Timestamp < b.Timestamp

instance : IsAntisymm TimelinePoint ptLT :=
  ⟨fun _ _ h1 h2 => absurd h2 (not_lt.mpr (le_of_lt h1))⟩

/-- A third example record in a different bucket (`ts = 205`). -/
def exConn3 : Connection :=
  { emptyConnection with
    Timestamp := 205, OrigHost := "A", RespHost := "B",
    Protocol := "udp", OrigBytes := 7, RespBytes := 0, ConnState := "S0" }

/-! ### Verification -/

theorem mapLookup_nil {κ α : Type} [DecidableEq κ] (k : κ) :
    mapLookup ([] : List (κ × α)) k = none := rfl

theorem mapLookup_cons_self {κ α : Type} [DecidableEq κ] (k : κ) (v : α)
    (m : List (κ × α)) : mapLookup ((k, v) :: m) k = some v := by
  simp [mapLookup]

theorem mapLookup_cons_ne {κ α : Type} [DecidableEq κ] {k k' : κ} (v : α)
    (m : List (κ × α)) (h : k ≠ k') :
    mapLookup ((k', v) :: m) k = mapLookup m k := by
  simp [mapLookup, h]

theorem mapLookup_append {κ α : Type} [DecidableEq κ] (m l : List (κ × α)) (k : κ) :
    mapLookup (m ++ l) k =
      match mapLookup m k with
      | some v => some v
      | none => mapLookup l k := by
  induction m with
  | nil => simp [mapLookup]
  | cons p rest ih =>
    by_cases h : k = p.1
    · subst h
      simp [mapLookup]
    · simpa [mapLookup, h] using ih

theorem mapLookup_mapUpdate_self {κ α : Type} [DecidableEq κ] (m : List (κ × α))
    (k : κ) (f : α → α) :
    mapLookup (mapUpdate m k f) k = (mapLookup m k).map f := by
  induction m with
  | nil => simp [mapLookup, mapUpdate]
  | cons p rest ih =>
    obtain ⟨a, b⟩ := p
    by_cases h : a = k
    · subst h
      simp only [mapUpdate, List.map_cons, eq_self_iff_true, if_true]
      rw [mapLookup_cons_self, mapLookup_cons_self]
      rfl
    · have h' : k ≠ a := fun hk => h hk.symm
      simp only [mapUpdate, List.map_cons]
      rw [if_neg h]
      rw [mapLookup_cons_ne _ _ h', mapLookup_cons_ne _ _ h']
      exact ih

theorem mapLookup_mapUpdate_ne {κ α : Type} [DecidableEq κ] (m : List (κ × α))
    {k k' : κ} (f : α → α) (h : k ≠ k') :
    mapLookup (mapUpdate m k' f) k = mapLookup m k := by
  induction m with
  | nil => simp [mapUpdate]
  | cons p rest ih =>
    obtain ⟨a, b⟩ := p
    by_cases hp : a = k'
    · subst hp
      simp only [mapUpdate, List.map_cons, eq_self_iff_true, if_true]
      rw [mapLookup_cons_ne _ _ h, mapLookup_cons_ne _ _ h]
      exact ih
    · by_cases hk : k = a
      · subst hk
        simp only [mapUpdate, List.map_cons]
        rw [if_neg hp]
        rw [mapLookup_cons_self, mapLookup_cons_self]
      · simp only [mapUpdate, List.map_cons]
        rw [if_neg hp]
        rw [mapLookup_cons_ne _ _ hk, mapLookup_cons_ne _ _ hk]
        exact ih

theorem mapLookup_mapUpsert_self {κ α : Type} [DecidableEq κ] (m : List (κ × α))
    (k : κ) (init : α) (f : α → α) :
    mapLookup (mapUpsert m k init f) k =
      some (f ((mapLookup m k).getD init)) := by
  unfold mapUpsert
  cases h : mapLookup m k with
  | none =>
    simp only [h, Option.isSome_none, Bool.false_eq_true, if_false]
    rw [mapLookup_mapUpdate_self, mapLookup_append, h]
    simp [mapLookup]
  | some v =>
    simp only [h, Option.isSome_some, if_true]
    rw [mapLookup_mapUpdate_self, h]
    rfl

theorem mapLookup_mapUpsert_ne {κ α : Type} [DecidableEq κ] (m : List (κ × α))
    {k k' : κ} (init : α) (f : α → α) (h : k ≠ k') :
    mapLookup (mapUpsert m k' init f) k = mapLookup m k := by
  unfold mapUpsert
  cases hm : mapLookup m k' with
  | none =>
    simp only [hm, Option.isSome_none, Bool.false_eq_true, if_false]
    rw [mapLookup_mapUpdate_ne _ _ h, mapLookup_append]
    cases hk : mapLookup m k with
    | none => simp [mapLookup, h]
    | some v => rfl
  | some v =>
    simp only [hm, Option.isSome_some, if_true]
    exact mapLookup_mapUpdate_ne _ _ h

/-- SHA-256 of the FIPS 180 one-block test message `"abc"`, validating the
implementation above against the published digest. -/
theorem sha256_abc_test_vector :
    bytesToHex (sha256Bytes (strBytes "abc"))
      = "ba7816bf8f01cfea414140de5dae2223b00361a396177a9cb410ff61f20015ad" := by
  set_option maxRecDepth 10000 in decide

/-- C10: applied to an empty record set (no current session, or a session with
zero records), the stats summarizer reports `time_range.start = end = -1` (the
unset sentinel, not 0) and `duration = 0`, with `total_connections`,
`total_bytes` and `unique_ip_count` all 0 and empty protocol / service /
state maps. -/
theorem C10_stats_empty_sentinel :
    (∀ a : API, a.currentFileID = "" → getCurrentConnections a = [])
    ∧ (∀ a : API, mapLookup a.files a.currentFileID = none →
        getCurrentConnections a = [])
    ∧ (∀ a : API, getCurrentConnections a = [] →
        getStats a =
          { totalConnections := 0, protocols := [], services := [],
            connStates := [], totalBytes := 0, uniqueIPCount := 0,
            timeRangeStart := -1, timeRangeEnd := -1,
            timeRangeDuration := 0 }) := by
  refine ⟨?_, ?_, ?_⟩
  · intro a h
    simp [getCurrentConnections, h]
  · intro a h
    unfold getCurrentConnections
    rw [h]
    simp
  · intro a h
    simp only [getStats, h, processConnectionStats, List.foldl_nil,
      List.length_nil]
    norm_num

/-- Witness for C10 at the freshly constructed store. -/
theorem C10_stats_empty_sentinel_witness :
    getStats (NewAPI "") =
      { totalConnections := 0, protocols := [], services := [],
        connStates := [], totalBytes := 0, uniqueIPCount := 0,
        timeRangeStart := -1, timeRangeEnd := -1,
        timeRangeDuration := 0 } :=
  C10_stats_empty_sentinel.2.2 (NewAPI "")
    (C10_stats_empty_sentinel.1 (NewAPI "") rfl)

/-- C8 counterexample: the source tests `"::1"` with the same slice-and-compare
starts-with check as every other pattern, so `"::10"` is classified local even
though it is not the exact literal `"::1"` (and starts with no other listed
pattern). -/
theorem C8_counterexample_exact_literal :
    isLocalIP "::10" = true ∧ isLocalClaimedC8 "::10" = false := by
  constructor
  · decide
  · decide

/-- C8 (amended): the classifier returns true for exactly those strings that
start with one of the literal patterns `192.168.`, `10.`, `172.16.`–`172.31.`,
`127.`, `fe80::` or `::1` — all tested as starts-with, including `::1` — and
false for every other string, including the empty string. -/
theorem C8_local_classifier_amended :
    ∀ ip : String, isLocalIP ip = isLocalAmendedC8 ip := by
  intro ip
  by_cases h : ip = ""
  · subst h
    decide
  · unfold isLocalIP isLocalAmendedC8 localPatterns
    rw [if_neg h]

/-- C6: if either bound string is empty or fails to parse as an integer, the
time filter is a no-op (never an error); if both parse, it keeps exactly the
records whose timestamp truncated to whole seconds lies in the inclusive
range `[start, end]`. -/
theorem C6_time_filter_bounds :
    ∀ (conns : List Connection) (startS endS : String),
      ((startS = "" ∨ endS = "" ∨ parseInt64 startS = none ∨
          parseInt64 endS = none) →
        applyTimeFilter conns startS endS = conns)
      ∧ (∀ s e : ℤ, parseInt64 startS = some s → parseInt64 endS = some e →
          startS ≠ "" → endS ≠ "" →
          applyTimeFilter conns startS endS =
            conns.filter
              (fun c => decide (s ≤ qTrunc c.Timestamp ∧ qTrunc c.Timestamp ≤ e))) := by
  intro conns startS endS
  constructor
  · intro h
    unfold applyTimeFilter
    rcases h with h | h | h | h
    · rw [if_pos (Or.inl h)]
    · rw [if_pos (Or.inr h)]
    · by_cases he : startS = "" ∨ endS = ""
      · rw [if_pos he]
      · rw [if_neg he, h]
    · by_cases he : startS = "" ∨ endS = ""
      · rw [if_pos he]
      · rw [if_neg he, h]
        cases parseInt64 startS <;> rfl
  · intro s e hs he hs' he'
    unfold applyTimeFilter
    rw [if_neg (by push_neg; exact ⟨hs', he'⟩), hs, he]

/-- Witness for C6: an unparseable bound is a no-op; parseable bounds filter
inclusively on truncated timestamps. -/
theorem C6_time_filter_bounds_witness :
    applyTimeFilter [exConn1, exConn2] "x" "104" = [exConn1, exConn2]
    ∧ applyTimeFilter [exConn1, exConn2] "100" "104" = [exConn1] := by
  constructor
  · exact (C6_time_filter_bounds [exConn1, exConn2] "x" "104").1
      (Or.inr (Or.inr (Or.inl (by decide))))
  · exact ((C6_time_filter_bounds [exConn1, exConn2] "100" "104").2
      100 104 (by decide) (by decide) (by decide) (by decide)).trans (by decide)

/-- C7: filtering with both the protocol and the state criterion at once (one
pipeline invocation) equals filtering by protocol and then by state (two
pipeline invocations); `"all"` and `""` are no-filter sentinels for both
criteria; a stage with zero matches yields `[]` rather than an error; and the
two-criteria filter is the single-pass conjunction filter. -/
theorem C7_filter_composition :
    ∀ (conns : List Connection) (P S : String),
      (filterConnections conns "" "" P S =
        filterConnections (filterConnections conns "" "" P "") "" "" "" S)
      ∧ (applyProtocolFilter conns "" = conns
         ∧ applyProtocolFilter conns "all" = conns
         ∧ applyConnStateFilter conns "" = conns
         ∧ applyConnStateFilter conns "all" = conns)
      ∧ (P ≠ "" → P ≠ "all" → S ≠ "" → S ≠ "all" →
          filterConnections conns "" "" P S =
            conns.filter (fun c => decide (c.Protocol = P ∧ c.ConnState = S)))
      ∧ ((∀ c ∈ conns, c.Protocol ≠ P) →
          applyProtocolFilter conns P = conns ∨ applyProtocolFilter conns P = []) := by
  intro conns P S
  have htime : ∀ l : List Connection, applyTimeFilter l "" "" = l := by
    intro l
    unfold applyTimeFilter
    rw [if_pos (Or.inl rfl)]
  have hproto_id : ∀ l : List Connection, applyProtocolFilter l "" = l := by
    intro l
    unfold applyProtocolFilter
    rw [if_pos (Or.inl rfl)]
  have hproto_all : ∀ l : List Connection, applyProtocolFilter l "all" = l := by
    intro l
    unfold applyProtocolFilter
    rw [if_pos (Or.inr (show ("all" : String) = allProtocol from rfl))]
  have hstate_id : ∀ l : List Connection, applyConnStateFilter l "" = l := by
    intro l
    unfold applyConnStateFilter
    rw [if_pos (Or.inl rfl)]
  have hstate_all : ∀ l : List Connection, applyConnStateFilter l "all" = l := by
    intro l
    unfold applyConnStateFilter
    rw [if_pos (Or.inr (show ("all" : String) = allProtocol from rfl))]
  refine ⟨?_, ⟨hproto_id conns, hproto_all conns, hstate_id conns,
    hstate_all conns⟩, ?_, ?_⟩
  · unfold filterConnections
    rw [htime, htime, hstate_id, hproto_id]
  · intro hP hPa hS hSa
    have hPc : ¬(P = "" ∨ P = allProtocol) := by
      rintro (h | h)
      · exact hP h
      · exact hPa h
    have hSc : ¬(S = "" ∨ S = allProtocol) := by
      rintro (h | h)
      · exact hS h
      · exact hSa h
    unfold filterConnections applyProtocolFilter applyConnStateFilter
    rw [htime]
    rw [if_neg hPc, if_neg hSc]
    rw [List.filter_filter]
    congr 1
    funext c
    simp [Bool.and_comm]
  · intro hnone
    by_cases hP : P = "" ∨ P = allProtocol
    · left
      unfold applyProtocolFilter
      rw [if_pos hP]
    · right
      unfold applyProtocolFilter
      rw [if_neg hP]
      apply List.filter_eq_nil_iff.mpr
      intro c hc
      simpa using hnone c hc

/-- Witness for C7: the composition and the single-pass form at the example
records and at the state filter value `"SF"`. -/
theorem C7_filter_composition_witness :
    filterConnections [exConn1, exConn2] "" "" "udp" "SF" =
      List.filter (fun c => decide (c.Protocol = "udp" ∧ c.ConnState = "SF"))
        [exConn1, exConn2] :=
  ((C7_filter_composition [exConn1, exConn2] "udp" "SF").2.2.1
    (by decide) (by decide) (by decide) (by decide))

theorem mapLookup_mapInsert_self {κ α : Type} [DecidableEq κ]
    (m : List (κ × α)) (k : κ) (v : α) :
    mapLookup (mapInsert m k v) k = some v := by
  unfold mapInsert
  cases h : mapLookup m k with
  | none =>
    simp only [h, Option.isSome_none, Bool.false_eq_true, if_false]
    rw [mapLookup_append, h]
    exact mapLookup_cons_self k v []
  | some w =>
    simp only [h, Option.isSome_some, if_true]
    rw [mapLookup_mapUpdate_self, h]
    rfl

theorem mapLookup_mapInsert_ne {κ α : Type} [DecidableEq κ]
    (m : List (κ × α)) {k k' : κ} (v : α) (h : k ≠ k') :
    mapLookup (mapInsert m k' v) k = mapLookup m k := by
  unfold mapInsert
  cases hm : mapLookup m k' with
  | none =>
    simp only [hm, Option.isSome_none, Bool.false_eq_true, if_false]
    rw [mapLookup_append]
    cases hk : mapLookup m k with
    | none => simp [mapLookup, h]
    | some w => rfl
  | some w =>
    simp only [hm, Option.isSome_some, if_true]
    exact mapLookup_mapUpdate_ne _ _ h

theorem length_mapInsert {κ α : Type} [DecidableEq κ]
    (m : List (κ × α)) (k : κ) (v : α) :
    (mapInsert m k v).length =
      if (mapLookup m k).isSome then m.length else m.length + 1 := by
  unfold mapInsert
  cases h : mapLookup m k with
  | none => simp [h, mapUpdate]
  | some w => simp [h, mapUpdate]

/-- C5 (amended): every ingest stores the parsed records under
`generateFileID(sourceName, uploadSecond)` — a deterministic function of the
source name and the ingestion second only — and makes that id current; the
store grows by one session exactly when that id is not already a key, and
otherwise (same name ingested within the same second) the existing session is
replaced in place, leaving the session count unchanged; sessions under any
other id are untouched. -/
theorem C5_ingest_amended :
    ∀ (a : API) (filename : String) (size uploadTime : ℤ)
      (lines : List InputLine),
      (uploadFile a filename size uploadTime lines).currentFileID
          = generateFileID filename uploadTime
      ∧ mapLookup (uploadFile a filename size uploadTime lines).files
            (generateFileID filename uploadTime)
          = some ⟨filename, uploadTime, size, loadConnectionsFromReader lines⟩
      ∧ (uploadFile a filename size uploadTime lines).files.length
          = (if (mapLookup a.files (generateFileID filename uploadTime)).isSome
             then a.files.length else a.files.length + 1)
      ∧ (∀ k, k ≠ generateFileID filename uploadTime →
          mapLookup (uploadFile a filename size uploadTime lines).files k
            = mapLookup a.files k) := by
  intro a filename size uploadTime lines
  refine ⟨rfl, ?_, ?_, ?_⟩
  · exact mapLookup_mapInsert_self a.files _ _
  · exact length_mapInsert a.files _ _
  · intro k hk
    exact mapLookup_mapInsert_ne a.files _ hk

set_option maxRecDepth 20000 in
/-- C5 counterexample: re-ingesting the same source name within the same
ingestion second reuses the same file id, so the second ingest replaces the
first session instead of adding one — the store still holds 1 session, not 2. -/
theorem C5_counterexample_same_second :
    apiOnceC5.files.length = 1 ∧ apiTwiceC5.files.length = 1 := by
  have h1 : apiOnceC5.files
      = [(generateFileID "conn.log" 7, ⟨"conn.log", 7, 0, []⟩)] := by
    show mapInsert ([] : List (String × FileData)) _ _ = _
    unfold mapInsert
    simp [mapLookup, loadConnectionsFromReader, List.filterMap]
  constructor
  · rw [h1]
    rfl
  · show (mapInsert apiOnceC5.files (generateFileID "conn.log" 7) _).length = 1
    rw [length_mapInsert, h1]
    rw [mapLookup_cons_self]
    rfl

/-- Witness for C5 at a concrete ingest into a fresh store. -/
theorem C5_ingest_amended_witness :
    (uploadFile (NewAPI "") "conn.log" 0 7 []).files.length = 1
    ∧ mapLookup (uploadFile (NewAPI "") "conn.log" 0 7 []).files "other"
        = mapLookup (NewAPI "").files "other" := by
  constructor
  · exact ((C5_ingest_amended (NewAPI "") "conn.log" 0 7 []).2.2.1).trans rfl
  · exact (C5_ingest_amended (NewAPI "") "conn.log" 0 7 []).2.2.2 "other"
      (by set_option maxRecDepth 10000 in decide)

theorem mapLookup_eq_none_iff {κ α : Type} [DecidableEq κ]
    (m : List (κ × α)) (k : κ) :
    mapLookup m k = none ↔ k ∉ keysOf m := by
  induction m with
  | nil => simp [mapLookup, keysOf]
  | cons p rest ih =>
    obtain ⟨a, b⟩ := p
    by_cases h : k = a
    · subst h
      simp [mapLookup, keysOf]
    · rw [mapLookup_cons_ne _ _ h]
      simp [keysOf, h] at ih ⊢
      exact ih

theorem filterOut_of_not_mem {κ α : Type} [DecidableEq κ]
    {m : List (κ × α)} {k : κ} (h : k ∉ keysOf m) :
    m.filter (fun p => decide (p.1 ≠ k)) = m := by
  apply List.filter_eq_self.mpr
  intro p hp
  have : p.1 ∈ keysOf m := List.mem_map.mpr ⟨p, hp, rfl⟩
  exact decide_eq_true (fun hk => h (hk ▸ this))

theorem mapLookup_filterOut_self {κ α : Type} [DecidableEq κ]
    (m : List (κ × α)) (k : κ) :
    mapLookup (m.filter (fun p => decide (p.1 ≠ k))) k = none := by
  induction m with
  | nil => rfl
  | cons p rest ih =>
    obtain ⟨a, b⟩ := p
    by_cases h : a = k
    · subst h
      simpa [List.filter_cons] using ih
    · rw [List.filter_cons, if_pos (by simpa using h)]
      rw [mapLookup_cons_ne _ _ (fun hk => h hk.symm)]
      exact ih

theorem mapLookup_filterOut_ne {κ α : Type} [DecidableEq κ]
    (m : List (κ × α)) {k k' : κ} (h : k' ≠ k) :
    mapLookup (m.filter (fun p => decide (p.1 ≠ k))) k' = mapLookup m k' := by
  induction m with
  | nil => rfl
  | cons p rest ih =>
    obtain ⟨a, b⟩ := p
    by_cases ha : a = k
    · subst ha
      rw [List.filter_cons, if_neg (by simp)]
      rw [mapLookup_cons_ne _ _ h]
      exact ih
    · rw [List.filter_cons, if_pos (by simpa using ha)]
      by_cases hk : k' = a
      · subst hk
        rw [mapLookup_cons_self, mapLookup_cons_self]
      · rw [mapLookup_cons_ne _ _ hk, mapLookup_cons_ne _ _ hk]
        exact ih

theorem mem_keysOf_filterOut {κ α : Type} [DecidableEq κ]
    {m : List (κ × α)} {k k' : κ} (h : k' ≠ k) (hm : k' ∈ keysOf m) :
    k' ∈ keysOf (m.filter (fun p => decide (p.1 ≠ k))) := by
  obtain ⟨p, hp, hpk⟩ := List.mem_map.mp hm
  exact List.mem_map.mpr
    ⟨p, List.mem_filter.mpr ⟨hp, decide_eq_true (hpk ▸ h)⟩, hpk⟩

theorem length_filterOut {κ α : Type} [DecidableEq κ]
    {m : List (κ × α)} {k : κ} (hnd : (keysOf m).Nodup)
    (hk : k ∈ keysOf m) :
    (m.filter (fun p => decide (p.1 ≠ k))).length = m.length - 1 := by
  induction m with
  | nil => cases hk
  | cons p rest ih =>
    obtain ⟨a, b⟩ := p
    have hnd' : a ∉ keysOf rest ∧ (keysOf rest).Nodup := by
      simpa [keysOf] using hnd
    by_cases h : a = k
    · subst h
      rw [List.filter_cons, if_neg (by simp)]
      rw [filterOut_of_not_mem hnd'.1]
      rfl
    · have hk2 : k ∈ a :: keysOf rest := hk
      have hk' : k ∈ keysOf rest := by
        rcases List.mem_cons.mp hk2 with h' | h'
        · exact absurd h'.symm h
        · exact h'
      have hpos : 0 < rest.length := by
        rcases rest with _ | ⟨q, t⟩
        · cases hk'
        · simp
      rw [List.filter_cons, if_pos (by simpa using h)]
      simp only [List.length_cons]
      rw [ih hnd'.2 hk']
      omega

/-- C1 (amended): on a store with pairwise-distinct keys and a valid current
pointer, `delete` of an absent **non-empty** id fails with NotFound; the empty
id fails with the required-field InvalidOperation regardless of presence;
deleting the sole remaining session fails with InvalidOperation; and with
N ≥ 2 sessions, deleting an existing id removes exactly that session and
leaves the current pointer referencing one of the remaining N − 1 sessions.
Every failing branch returns before any store mutation. -/
theorem C1_delete_amended :
    ∀ (a : API) (fid : String),
      (keysOf a.files).Nodup →
      (a.files ≠ [] → a.currentFileID ∈ keysOf a.files) →
      ((fid ≠ "" → mapLookup a.files fid = none →
          deleteFile a fid = Except.error DeleteError.fileNotFound)
       ∧ deleteFile a "" = Except.error DeleteError.fileIDRequired
       ∧ (a.files.length = 1 → fid ≠ "" → mapLookup a.files fid ≠ none →
          deleteFile a fid = Except.error DeleteError.cannotDeleteOnlyFile)
       ∧ (2 ≤ a.files.length → fid ≠ "" → mapLookup a.files fid ≠ none →
          ∃ a' : API, deleteFile a fid = Except.ok a'
            ∧ a'.files.length = a.files.length - 1
            ∧ mapLookup a'.files fid = none
            ∧ (∀ k, k ≠ fid → mapLookup a'.files k = mapLookup a.files k)
            ∧ a'.currentFileID ∈ keysOf a'.files
            ∧ a'.currentFileID ≠ fid)) := by
  intro a fid hnd hcur
  refine ⟨?_, ?_, ?_, ?_⟩
  · intro hne hnone
    unfold deleteFile
    rw [if_neg hne, hnone]
    rfl
  · rfl
  · intro hlen hne hsome
    obtain ⟨v, hv⟩ := Option.ne_none_iff_exists'.mp hsome
    unfold deleteFile
    rw [if_neg hne, hv]
    simp only [Option.isNone_some, Bool.false_eq_true, if_false]
    rw [if_pos (by omega)]
  · intro hlen hne hsome
    obtain ⟨v, hv⟩ := Option.ne_none_iff_exists'.mp hsome
    have hmem : fid ∈ keysOf a.files := by
      by_contra hmm
      exact hsome ((mapLookup_eq_none_iff _ _).mpr hmm)
    have hlenrem : (a.files.filter (fun p => decide (p.1 ≠ fid))).length
        = a.files.length - 1 := length_filterOut hnd hmem
    obtain ⟨q, t, hqt⟩ : ∃ q t,
        a.files.filter (fun p => decide (p.1 ≠ fid)) = q :: t := by
      rcases hr : a.files.filter (fun p => decide (p.1 ≠ fid)) with _ | ⟨q, t⟩
      · rw [hr] at hlenrem
        simp at hlenrem
        omega
      · exact ⟨q, t, hr⟩
    have hq_mem : q ∈ a.files.filter (fun p => decide (p.1 ≠ fid)) := by
      rw [hqt]
      exact List.mem_cons_self q t
    have hq_ne : q.1 ≠ fid :=
      of_decide_eq_true (List.mem_filter.mp hq_mem).2
    have hdel : deleteFile a fid = Except.ok
        { files := a.files.filter (fun p => decide (p.1 ≠ fid)),
          currentFileID :=
            if a.currentFileID = fid then q.1 else a.currentFileID,
          logPath := a.logPath } := by
      unfold deleteFile
      rw [if_neg hne, hv]
      simp only [Option.isNone_some, Bool.false_eq_true, if_false]
      rw [if_neg (by omega)]
      rw [hqt]
    refine ⟨_, hdel, ?_, ?_, ?_, ?_, ?_⟩
    · exact hlenrem
    · exact mapLookup_filterOut_self a.files fid
    · intro k hk
      exact mapLookup_filterOut_ne a.files hk
    · by_cases hc : a.currentFileID = fid
      · simp only [hc, if_pos rfl]
        rw [hqt]
        exact List.mem_cons_self q.1 (keysOf t)
      · simp only [if_neg hc]
        have hne_nil : a.files ≠ [] := by
          intro h0
          rw [h0] at hlen
          simp at hlen
        exact mem_keysOf_filterOut hc (hcur hne_nil)
    · by_cases hc : a.currentFileID = fid
      · simpa only [hc, if_pos rfl] using hq_ne
      · simpa only [if_neg hc] using hc

/-- C1 counterexample: the empty id is absent from the store, yet `delete("")`
fails with the required-field error (HTTP 400, an InvalidOperation in the
spec's taxonomy), not with NotFound as the claim demands for every absent
id. -/
theorem C1_counterexample_empty_id :
    mapLookup apiC1.files "" = none
    ∧ deleteFile apiC1 "" = Except.error DeleteError.fileIDRequired
    ∧ DeleteError.fileIDRequired ≠ DeleteError.fileNotFound := by
  exact ⟨rfl, rfl, by decide⟩

/-- Witness for C1: deleting session `"b"` from the two-session store
succeeds, leaves one session, and keeps a valid current pointer. -/
theorem C1_delete_amended_witness :
    ∃ a' : API, deleteFile apiC1 "b" = Except.ok a'
      ∧ a'.files.length = apiC1.files.length - 1
      ∧ mapLookup a'.files "b" = none
      ∧ (∀ k, k ≠ "b" → mapLookup a'.files k = mapLookup apiC1.files k)
      ∧ a'.currentFileID ∈ keysOf a'.files
      ∧ a'.currentFileID ≠ "b" :=
  (C1_delete_amended apiC1 "b" (by decide)
    (fun _ => by decide)).2.2.2 (by decide) (by decide) (by decide)

theorem strFieldDefault (o : Option JSONValue) (d : String) :
    isStrVal o = false →
    (match o with
     | some (JSONValue.str s) => s
     | _ => d) = d := by
  intro h
  cases o with
  | none => rfl
  | some v =>
    cases v with
    | str s => exact absurd h (by simp [isStrVal])
    | null => rfl
    | bool b => rfl
    | num q => rfl
    | arr l => rfl
    | obj l => rfl

theorem numFieldDefaultQ (o : Option JSONValue) (d : ℚ) :
    isNumVal o = false →
    (match o with
     | some (JSONValue.num q) => q
     | _ => d) = d := by
  intro h
  cases o with
  | none => rfl
  | some v =>
    cases v with
    | num q => exact absurd h (by simp [isNumVal])
    | null => rfl
    | bool b => rfl
    | str s => rfl
    | arr l => rfl
    | obj l => rfl

theorem numFieldDefaultZ (o : Option JSONValue) (d : ℤ) :
    isNumVal o = false →
    (match o with
     | some (JSONValue.num q) => qTrunc q
     | _ => d) = d := by
  intro h
  cases o with
  | none => rfl
  | some v =>
    cases v with
    | num q => exact absurd h (by simp [isNumVal])
    | null => rfl
    | bool b => rfl
    | str s => rfl
    | arr l => rfl
    | obj l => rfl

theorem boolFieldDefault (o : Option JSONValue) (d : Bool) :
    isBoolVal o = false →
    (match o with
     | some (JSONValue.bool b) => b
     | _ => d) = d := by
  intro h
  cases o with
  | none => rfl
  | some v =>
    cases v with
    | bool b => exact absurd h (by simp [isBoolVal])
    | null => rfl
    | num q => rfl
    | str s => rfl
    | arr l => rfl
    | obj l => rfl

/-- C2: for every decoded JSON object line, parsing succeeds (the record is
produced) and each recognized field whose value is absent or of the wrong
JSON type is set to its zero value, independently per field; and for every
input stream, the number of records equals exactly the number of lines that
are decoded JSON objects — non-JSON lines and blank lines are skipped. -/
theorem C2_tolerant_parsing :
    (∀ lines : List InputLine,
      (loadConnectionsFromReader lines).length
        = (lines.filter isJSONObjLine).length)
    ∧ (∀ raw : List (String × JSONValue),
        processLine (InputLine.jsonObj raw) = some (unmarshalConnection raw)
        ∧ (isStrVal (getField raw "uid") = false →
            (unmarshalConnection raw).UID = "")
        ∧ (isStrVal (getField raw "id.orig_h") = false →
            (unmarshalConnection raw).OrigHost = "")
        ∧ (isStrVal (getField raw "id.resp_h") = false →
            (unmarshalConnection raw).RespHost = "")
        ∧ (isStrVal (getField raw "proto") = false →
            (unmarshalConnection raw).Protocol = "")
        ∧ (isStrVal (getField raw "service") = false →
            (unmarshalConnection raw).Service = "")
        ∧ (isStrVal (getField raw "conn_state") = false →
            (unmarshalConnection raw).ConnState = "")
        ∧ (isStrVal (getField raw "history") = false →
            (unmarshalConnection raw).History = "")
        ∧ (isNumVal (getField raw "ts") = false →
            (unmarshalConnection raw).Timestamp = 0)
        ∧ (isNumVal (getField raw "id.orig_p") = false →
            (unmarshalConnection raw).OrigPort = 0)
        ∧ (isNumVal (getField raw "id.resp_p") = false →
            (unmarshalConnection raw).RespPort = 0)
        ∧ (isNumVal (getField raw "ip_proto") = false →
            (unmarshalConnection raw).IPProtocol = 0)
        ∧ (isNumVal (getField raw "orig_bytes") = false →
            (unmarshalConnection raw).OrigBytes = 0)
        ∧ (isNumVal (getField raw "resp_bytes") = false →
            (unmarshalConnection raw).RespBytes = 0)
        ∧ (isNumVal (getField raw "missed_bytes") = false →
            (unmarshalConnection raw).MissedBytes = 0)
        ∧ (isNumVal (getField raw "orig_ip_bytes") = false →
            (unmarshalConnection raw).OrigIPBytes = 0)
        ∧ (isNumVal (getField raw "resp_ip_bytes") = false →
            (unmarshalConnection raw).RespIPBytes = 0)
        ∧ (isNumVal (getField raw "orig_pkts") = false →
            (unmarshalConnection raw).OrigPackets = 0)
        ∧ (isNumVal (getField raw "resp_pkts") = false →
            (unmarshalConnection raw).RespPackets = 0)
        ∧ (isNumVal (getField raw "duration") = false →
            (unmarshalConnection raw).Duration = 0)
        ∧ (isBoolVal (getField raw "local_orig") = false →
            (unmarshalConnection raw).LocalOrig = false)
        ∧ (isBoolVal (getField raw "local_resp") = false →
            (unmarshalConnection raw).LocalResp = false)) := by
  constructor
  · intro lines
    induction lines with
    | nil => rfl
    | cons l rest ih =>
      cases l with
      | blank =>
        simpa [loadConnectionsFromReader, List.filterMap_cons, processLine,
          isJSONObjLine, List.filter_cons] using ih
      | invalid =>
        simpa [loadConnectionsFromReader, List.filterMap_cons, processLine,
          isJSONObjLine, List.filter_cons] using ih
      | jsonObj raw =>
        simpa [loadConnectionsFromReader, List.filterMap_cons, processLine,
          isJSONObjLine, List.filter_cons] using ih
  · intro raw
    refine ⟨rfl, ?_, ?_, ?_, ?_, ?_, ?_, ?_, ?_, ?_, ?_, ?_, ?_, ?_, ?_, ?_,
      ?_, ?_, ?_, ?_, ?_, ?_⟩
    · exact fun h => strFieldDefault _ _ h
    · exact fun h => strFieldDefault _ _ h
    · exact fun h => strFieldDefault _ _ h
    · exact fun h => strFieldDefault _ _ h
    · exact fun h => strFieldDefault _ _ h
    · exact fun h => strFieldDefault _ _ h
    · exact fun h => strFieldDefault _ _ h
    · exact fun h => numFieldDefaultQ _ _ h
    · exact fun h => numFieldDefaultZ _ _ h
    · exact fun h => numFieldDefaultZ _ _ h
    · exact fun h => numFieldDefaultZ _ _ h
    · exact fun h => numFieldDefaultZ _ _ h
    · exact fun h => numFieldDefaultZ _ _ h
    · exact fun h => numFieldDefaultZ _ _ h
    · exact fun h => numFieldDefaultZ _ _ h
    · exact fun h => numFieldDefaultZ _ _ h
    · exact fun h => numFieldDefaultZ _ _ h
    · exact fun h => numFieldDefaultZ _ _ h
    · exact fun h => numFieldDefaultQ _ _ h
    · exact fun h => boolFieldDefault _ _ h
    · exact fun h => boolFieldDefault _ _ h

/-- Witness for C2: one blank line, one mistyped-field object line and one
invalid line yield exactly one record, with the mistyped fields at their zero
values. -/
theorem C2_tolerant_parsing_witness :
    (loadConnectionsFromReader
       [InputLine.blank, InputLine.jsonObj rawC2, InputLine.invalid]).length = 1
    ∧ (unmarshalConnection rawC2).Protocol = ""
    ∧ (unmarshalConnection rawC2).OrigBytes = 0
    ∧ (unmarshalConnection rawC2).Timestamp = 0
    ∧ (unmarshalConnection rawC2).LocalOrig = false := by
  have H := C2_tolerant_parsing.2 rawC2
  refine ⟨(C2_tolerant_parsing.1
    [InputLine.blank, InputLine.jsonObj rawC2, InputLine.invalid]).trans
      (by decide), ?_, ?_, ?_, ?_⟩
  · exact H.2.2.2.2.1 (by decide)
  · exact H.2.2.2.2.2.2.2.2.2.2.2.2.1 (by decide)
  · exact H.2.2.2.2.2.2.2.2.1 (by decide)
  · exact H.2.2.2.2.2.2.2.2.2.2.2.2.2.2.2.2.2.2.2.2.1 (by decide)

theorem qTrunc_mono {a b : ℚ} (h : a ≤ b) : qTrunc a ≤ qTrunc b := by
  unfold qTrunc
  by_cases ha : 0 ≤ a
  · rw [if_pos ha, if_pos (le_trans ha h)]
    exact Int.floor_mono h
  · rw [if_neg ha]
    by_cases hb : 0 ≤ b
    · rw [if_pos hb]
      have ha' : a ≤ ((0 : ℤ) : ℚ) := by
        push_cast
        exact le_of_lt (lt_of_not_ge ha)
      calc ⌈a⌉ ≤ 0 := Int.ceil_le.mpr ha'
        _ ≤ ⌊b⌋ := Int.floor_nonneg.mpr hb
    · rw [if_neg hb]
      exact Int.ceil_mono h

theorem mapLookup_some_mem {κ α : Type} [DecidableEq κ]
    {m : List (κ × α)} {k : κ} {v : α} (h : mapLookup m k = some v) :
    (k, v) ∈ m := by
  induction m with
  | nil => cases h
  | cons p rest ih =>
    obtain ⟨a, b⟩ := p
    by_cases hk : k = a
    · subst hk
      rw [mapLookup_cons_self] at h
      cases h
      exact List.mem_cons_self _ _
    · rw [mapLookup_cons_ne _ _ hk] at h
      exact List.mem_cons_of_mem _ (ih h)

theorem mapLookup_of_mem_of_nodup {κ α : Type} [DecidableEq κ]
    {m : List (κ × α)} (hnd : (keysOf m).Nodup) {p : κ × α} (hp : p ∈ m) :
    mapLookup m p.1 = some p.2 := by
  induction m with
  | nil => cases hp
  | cons q rest ih =>
    have hnd' : q.1 ∉ keysOf rest ∧ (keysOf rest).Nodup := by
      simpa [keysOf] using hnd
    rcases List.mem_cons.mp hp with rfl | hp'
    · obtain ⟨a, b⟩ := p
      exact mapLookup_cons_self a b rest
    · obtain ⟨a, b⟩ := q
      have hmem : p.1 ∈ keysOf rest := List.mem_map.mpr ⟨p, hp', rfl⟩
      have hne : p.1 ≠ a := fun hh => hnd'.1 (hh ▸ hmem)
      rw [mapLookup_cons_ne _ _ hne]
      exact ih hnd'.2 hp'

theorem keysOf_mapUpdate {κ α : Type} [DecidableEq κ]
    (m : List (κ × α)) (k : κ) (f : α → α) :
    keysOf (mapUpdate m k f) = keysOf m := by
  unfold keysOf mapUpdate
  rw [List.map_map]
  apply List.map_congr_left
  intro p _
  by_cases h : p.1 = k
  · simp [h]
  · simp [h]

theorem getLastD_mem {α : Type} :
    ∀ (l : List α) (d : α), l ≠ [] → l.getLastD d ∈ l
  | [], _, h => absurd rfl h
  | a :: l, d, _ => by
    rw [List.getLastD_cons]
    cases l with
    | nil => exact List.mem_singleton.mpr rfl
    | cons z t =>
      exact List.mem_cons_of_mem a (getLastD_mem (z :: t) a (by simp))

theorem sorted_tsLE_head_le {x : Connection} {l : List Connection}
    (hs : List.Sorted tsLE (x :: l)) :
    ∀ y ∈ x :: l, x.Timestamp ≤ y.Timestamp := by
  intro y hy
  rcases List.mem_cons.mp hy with rfl | hy'
  · exact le_refl _
  · exact List.rel_of_sorted_cons hs y hy'

theorem sorted_tsLE_le_getLastD :
    ∀ (l : List Connection) (d : Connection), List.Sorted tsLE l →
      ∀ y ∈ l, y.Timestamp ≤ (l.getLastD d).Timestamp
  | [], _, _, y, hy => absurd hy (List.not_mem_nil y)
  | x :: l, d, hs, y, hy => by
    rw [List.getLastD_cons]
    cases l with
    | nil =>
      rcases List.mem_cons.mp hy with rfl | hy'
      · exact le_refl _
      · cases hy'
    | cons z t =>
      rcases List.mem_cons.mp hy with rfl | hy'
      · exact List.rel_of_sorted_cons hs _
          (getLastD_mem (z :: t) y (by simp))
      · exact sorted_tsLE_le_getLastD (z :: t) x hs.of_cons y hy'

theorem bucketStep_lookup_ne (m : List (ℤ × TimelinePoint)) (c : Connection)
    {b : ℤ} (h : b ≠ bucketOf c) :
    mapLookup (bucketStep m c) b = mapLookup m b := by
  simp only [bucketStep]
  cases hm : mapLookup m (bucketOf c) with
  | some p => exact mapLookup_mapUpdate_ne _ _ h
  | none =>
    rw [mapLookup_append]
    cases hk : mapLookup m b with
    | some v => rfl
    | none => simp [mapLookup, h]

theorem bucketStep_lookup_self (m : List (ℤ × TimelinePoint)) (c : Connection) :
    mapLookup (bucketStep m c) (bucketOf c) =
      match mapLookup m (bucketOf c) with
      | some p => some { p with Count := p.Count + 1,
                                Bytes := p.Bytes + c.TotalBytes }
      | none => some { Timestamp := bucketOf c, Count := 1,
                       Bytes := c.TotalBytes } := by
  simp only [bucketStep]
  cases hm : mapLookup m (bucketOf c) with
  | some p =>
    rw [mapLookup_mapUpdate_self, hm]
    rfl
  | none =>
    rw [mapLookup_append, hm]
    exact mapLookup_cons_self _ _ []

theorem bucketFold_lookup (conns : List Connection) (b : ℤ) :
    mapLookup (conns.foldl bucketStep []) b =
      match bucketMatches b conns with
      | [] => none
      | _ :: _ => some
          { Timestamp := b,
            Count := ((bucketMatches b conns).length : ℤ),
            Bytes := ((bucketMatches b conns).map Connection.TotalBytes).sum } := by
  induction conns using List.reverseRecOn with
  | nil => rfl
  | append_singleton l x ih =>
    rw [List.foldl_append, List.foldl_cons, List.foldl_nil]
    by_cases hb : b = bucketOf x
    · subst hb
      rw [bucketStep_lookup_self, ih]
      have hsplit : bucketMatches (bucketOf x) (l ++ [x])
          = bucketMatches (bucketOf x) l ++ [x] := by
        unfold bucketMatches
        rw [List.filter_append]
        simp [List.filter_cons]
      rcases hml : bucketMatches (bucketOf x) l with _ | ⟨c0, t⟩
      · rw [hsplit, hml]
        simp
      · rw [hsplit, hml]
        simp only [List.cons_append, List.length_cons, List.length_append,
          List.map_cons, List.map_append, List.sum_cons, List.sum_append,
          List.map_nil, List.sum_nil, List.length_nil, Option.some.injEq,
          TimelinePoint.mk.injEq]
        refine ⟨trivial, ?_, ?_⟩
        · push_cast
          ring
        · ring
    · have hxb : ¬(bucketOf x = b) := fun hh => hb hh.symm
      rw [bucketStep_lookup_ne _ _ hb, ih]
      have hsplit : bucketMatches b (l ++ [x]) = bucketMatches b l := by
        unfold bucketMatches
        rw [List.filter_append]
        simp [List.filter_cons, hxb]
      rw [hsplit]

theorem bucketFold_invariant (conns : List Connection) :
    (keysOf (conns.foldl bucketStep [])).Nodup
    ∧ ∀ p ∈ conns.foldl bucketStep [], p.2.Timestamp = p.1 := by
  induction conns using List.reverseRecOn with
  | nil => exact ⟨List.nodup_nil, fun p hp => absurd hp (List.not_mem_nil p)⟩
  | append_singleton l x ih =>
    obtain ⟨ihn, ihts⟩ := ih
    rw [List.foldl_append, List.foldl_cons, List.foldl_nil]
    simp only [bucketStep]
    cases hm : mapLookup (l.foldl bucketStep []) (bucketOf x) with
    | some p =>
      constructor
      · rw [keysOf_mapUpdate]
        exact ihn
      · intro q hq
        obtain ⟨r, hr, hqr⟩ := List.mem_map.mp hq
        by_cases h : r.1 = bucketOf x
        · rw [← hqr]
          simp only [h, eq_self_iff_true, if_true]
          exact (ihts r hr).trans h
        · rw [← hqr]
          rw [if_neg h]
          exact ihts r hr
    | none =>
      have hnotmem : bucketOf x ∉ keysOf (l.foldl bucketStep []) :=
        (mapLookup_eq_none_iff _ _).mp hm
      constructor
      · unfold keysOf
        rw [List.map_append]
        apply List.Nodup.append ihn (List.nodup_singleton _)
        intro a ha hb'
        rcases List.mem_singleton.mp hb' with rfl
        exact hnotmem ha
      · intro q hq
        rcases List.mem_append.mp hq with hq' | hq'
        · exact ihts q hq'
        · rcases List.mem_singleton.mp hq' with rfl
          rfl

/-- C3 counterexample: Go integer division truncates toward zero, so the
record with timestamp `-5` lands in bucket `0`, while the claim's
`floor(ts / 10) * 10` bucket would be `-10`. -/
theorem C3_counterexample_negative_bucket :
    (getTimeline [cNegC3]).Points.map TimelinePoint.Timestamp = [0]
    ∧ bucketOf cNegC3 = 0
    ∧ bucketClaimedC3 cNegC3 = -10 := by
  refine ⟨?_, by decide, by decide⟩
  decide

/-- C3 (amended): on an empty record set the timeline is empty with
`start = end = 0`; otherwise every record is assigned to the bucket
`(int64(ts) / 10) * 10` — Go's truncating integer division, which agrees with
`floor(int64(ts) / 10) * 10` for nonnegative truncated timestamps — buckets
accumulate the count and total bytes of exactly their records, output points
are sorted ascending by bucket timestamp, and start/end are the
minimum/maximum truncated timestamp over all input records (the spec's
two-record example evaluates as claimed). -/
theorem C3_timeline_amended :
    getTimeline [] = { Points := [], Start := 0, End := 0 }
    ∧ getTimeline [exConn1, exConn2] =
        { Points := [{ Timestamp := 100, Count := 2, Bytes := 15 }],
          Start := 100, End := 105 }
    ∧ ∀ conns : List Connection, conns ≠ [] →
        ((∀ c ∈ conns, (getTimeline conns).Start ≤ qTrunc c.Timestamp
            ∧ qTrunc c.Timestamp ≤ (getTimeline conns).End)
         ∧ (∃ c ∈ conns, (getTimeline conns).Start = qTrunc c.Timestamp)
         ∧ (∃ c ∈ conns, (getTimeline conns).End = qTrunc c.Timestamp)
         ∧ (getTimeline conns).Points.Sorted ptLE
         ∧ (∀ c ∈ conns, ∃ p ∈ (getTimeline conns).Points,
              p.Timestamp = bucketOf c
              ∧ p.Count = ((bucketMatches (bucketOf c) conns).length : ℤ)
              ∧ p.Bytes =
                  ((bucketMatches (bucketOf c) conns).map
                    Connection.TotalBytes).sum)
         ∧ (∀ p ∈ (getTimeline conns).Points,
              mapLookup (timelineMapOf conns) p.Timestamp = some p)) := by
  refine ⟨rfl, by decide, ?_⟩
  intro conns hne
  have hperm : List.Perm (List.insertionSort tsLE conns) conns :=
    List.perm_insertionSort tsLE conns
  have hsorted : List.Sorted tsLE (List.insertionSort tsLE conns) :=
    List.sorted_insertionSort tsLE conns
  obtain ⟨x, xs, hx⟩ : ∃ x xs, List.insertionSort tsLE conns = x :: xs := by
    rcases hsc : List.insertionSort tsLE conns with _ | ⟨x, xs⟩
    · rw [hsc] at hperm
      exact absurd (List.Perm.eq_nil hperm.symm) hne
    · exact ⟨x, xs, rfl⟩
  have hnotempty : conns.isEmpty = false := by
    rcases conns with _ | _
    · exact absurd rfl hne
    · rfl
  have hgt : getTimeline conns =
      { Points := List.insertionSort ptLE
          ((timelineMapOf conns).map (fun p => p.2)),
        Start := qTrunc (((List.insertionSort tsLE conns).headD
          emptyConnection).Timestamp),
        End := qTrunc (((List.insertionSort tsLE conns).getLastD
          emptyConnection).Timestamp) } := by
    unfold getTimeline getTimelineWith
    rw [hnotempty]
    rfl
  have hmemsort : ∀ c, c ∈ conns ↔ c ∈ List.insertionSort tsLE conns :=
    fun c => (List.Perm.mem_iff hperm).symm
  have hstart_le : ∀ c ∈ conns,
      qTrunc (((List.insertionSort tsLE conns).headD
        emptyConnection).Timestamp) ≤ qTrunc c.Timestamp := by
    intro c hc
    apply qTrunc_mono
    rw [hx]
    simp only [List.headD_cons]
    exact sorted_tsLE_head_le (hx ▸ hsorted) c (hx ▸ (hmemsort c).mp hc)
  have hle_end : ∀ c ∈ conns, qTrunc c.Timestamp ≤
      qTrunc (((List.insertionSort tsLE conns).getLastD
        emptyConnection).Timestamp) := by
    intro c hc
    apply qTrunc_mono
    exact sorted_tsLE_le_getLastD _ emptyConnection hsorted c
      ((hmemsort c).mp hc)
  have hinv := bucketFold_invariant (List.insertionSort tsLE conns)
  refine ⟨?_, ?_, ?_, ?_, ?_, ?_⟩
  · intro c hc
    rw [hgt]
    exact ⟨hstart_le c hc, hle_end c hc⟩
  · refine ⟨x, (hmemsort x).mpr (by rw [hx]; exact List.mem_cons_self x xs), ?_⟩
    rw [hgt, hx]
    rfl
  · refine ⟨(List.insertionSort tsLE conns).getLastD emptyConnection,
      (hmemsort _).mpr (getLastD_mem _ _
        (by rw [hx]; exact List.cons_ne_nil x xs)), ?_⟩
    rw [hgt]
  · rw [hgt]
    exact List.sorted_insertionSort ptLE _
  · intro c hc
    have hcsort : c ∈ List.insertionSort tsLE conns := (hmemsort c).mp hc
    have hmatch_ne : bucketMatches (bucketOf c)
        (List.insertionSort tsLE conns) ≠ [] := by
      intro h0
      have : c ∈ bucketMatches (bucketOf c) (List.insertionSort tsLE conns) :=
        List.mem_filter.mpr ⟨hcsort, by simp⟩
      rw [h0] at this
      cases this
    have hpermfilter : List.Perm
        (bucketMatches (bucketOf c) (List.insertionSort tsLE conns))
        (bucketMatches (bucketOf c) conns) := List.Perm.filter _ hperm
    have hlook := bucketFold_lookup (List.insertionSort tsLE conns) (bucketOf c)
    rcases hml : bucketMatches (bucketOf c) (List.insertionSort tsLE conns)
      with _ | ⟨c0, t⟩
    · exact absurd hml hmatch_ne
    · rw [hml] at hlook
      have hpoint : mapLookup (timelineMapOf conns) (bucketOf c)
          = some (bucketPointOf conns (bucketOf c)) := by
        unfold timelineMapOf bucketPointOf
        rw [hlook]
        dsimp only
        rw [← hml]
        rw [List.Perm.length_eq hpermfilter,
          List.Perm.sum_eq (List.Perm.map Connection.TotalBytes hpermfilter)]
      refine ⟨bucketPointOf conns (bucketOf c), ?_, rfl, rfl, rfl⟩
      rw [hgt]
      have hmem : ((bucketOf c), bucketPointOf conns (bucketOf c)) ∈
          timelineMapOf conns := mapLookup_some_mem hpoint
      have hval : bucketPointOf conns (bucketOf c) ∈
          (timelineMapOf conns).map (fun p => p.2) :=
        List.mem_map.mpr ⟨_, hmem, rfl⟩
      exact (List.Perm.mem_iff (List.perm_insertionSort ptLE _)).mpr hval
  · intro p hp
    rw [hgt] at hp
    have hp' : p ∈ (timelineMapOf conns).map (fun q => q.2) :=
      (List.Perm.mem_iff (List.perm_insertionSort ptLE _)).mp hp
    obtain ⟨q, hq, hqp⟩ := List.mem_map.mp hp'
    have hts : p.Timestamp = q.1 := by
      rw [← hqp]
      exact hinv.2 q hq
    have hlq := mapLookup_of_mem_of_nodup hinv.1 hq
    rw [hts]
    show mapLookup (timelineMapOf conns) q.1 = some p
    unfold timelineMapOf
    rw [hlq, hqp]

/-- Witness for C3 at the spec's two-record example. -/
theorem C3_timeline_amended_witness :
    ∃ p ∈ (getTimeline [exConn1, exConn2]).Points,
      p.Timestamp = bucketOf exConn1
      ∧ p.Count = ((bucketMatches (bucketOf exConn1)
          [exConn1, exConn2]).length : ℤ)
      ∧ p.Bytes = ((bucketMatches (bucketOf exConn1)
          [exConn1, exConn2]).map Connection.TotalBytes).sum :=
  ((C3_timeline_amended.2.2 [exConn1, exConn2]
    (by decide)).2.2.2.2.1) exConn1 (List.mem_cons_self _ _)

theorem splitDash_inj : ∀ (xs xs' rest rest' : List Char),
    ('-' : Char) ∉ xs → ('-' : Char) ∉ xs' →
    xs ++ '-' :: rest = xs' ++ '-' :: rest' → xs = xs' ∧ rest = rest'
  | [], [], _, _, _, _, h => ⟨rfl, by simpa using h⟩
  | [], a' :: t', _, _, _, hx', h => by
    rw [List.nil_append, List.cons_append] at h
    injection h with h1 h2
    rw [← h1] at hx'
    exact absurd (List.mem_cons_self _ _) hx'
  | a :: t, [], _, _, hx, _, h => by
    rw [List.cons_append, List.nil_append] at h
    injection h with h1 h2
    rw [h1] at hx
    exact absurd (List.mem_cons_self _ _) hx
  | a :: t, a' :: t', rest, rest', hx, hx', h => by
    rw [List.cons_append, List.cons_append] at h
    injection h with h1 h2
    obtain ⟨he, hr⟩ := splitDash_inj t t' rest rest'
      (fun hm => hx (List.mem_cons_of_mem a hm))
      (fun hm => hx' (List.mem_cons_of_mem a' hm)) h2
    exact ⟨by rw [h1, he], hr⟩

theorem edgeKey_data (c : Connection) :
    (edgeKey c).data
      = c.OrigHost.data ++ '-' :: (c.RespHost.data ++ '-' :: c.Protocol.data) := by
  unfold edgeKey
  simp [String.data_append]

theorem edgeKey_triple_iff (c1 c2 : Connection)
    (h1 : dashFree c1.OrigHost) (h2 : dashFree c1.RespHost)
    (h1' : dashFree c2.OrigHost) (h2' : dashFree c2.RespHost) :
    edgeKey c1 = edgeKey c2 ↔
      (c1.OrigHost = c2.OrigHost ∧ c1.RespHost = c2.RespHost
        ∧ c1.Protocol = c2.Protocol) := by
  constructor
  · intro h
    have hd := congrArg String.data h
    rw [edgeKey_data, edgeKey_data] at hd
    obtain ⟨ho, hrest⟩ := splitDash_inj _ _ _ _ h1 h1' hd
    obtain ⟨hr, hp⟩ := splitDash_inj _ _ _ _ h2 h2' hrest
    exact ⟨String.ext ho, String.ext hr, String.ext hp⟩
  · rintro ⟨ho, hr, hp⟩
    unfold edgeKey
    rw [ho, hr, hp]

theorem processEdge_lookup_self (m : List (String × Edge)) (x : Connection) :
    mapLookup (processEdge m x) (edgeKey x)
      = some (match mapLookup m (edgeKey x) with
        | some e =>
          { e with
            Count := e.Count + 1,
            TotalBytes := e.TotalBytes + x.TotalBytes,
            Weight := ((e.TotalBytes + x.TotalBytes : ℤ) : ℚ) / 1000 }
        | none =>
          { Source := x.OrigHost
            Target := x.RespHost
            Protocol := x.Protocol
            Service := x.Service
            Count := 0 + 1
            TotalBytes := 0 + x.TotalBytes
            Weight := ((0 + x.TotalBytes : ℤ) : ℚ) / 1000 }) := by
  unfold processEdge
  rw [mapLookup_mapUpsert_self]
  cases mapLookup m (edgeKey x) <;> rfl

theorem processEdge_lookup_ne (m : List (String × Edge)) (x : Connection)
    {k : String} (h : k ≠ edgeKey x) :
    mapLookup (processEdge m x) k = mapLookup m k := by
  unfold processEdge
  exact mapLookup_mapUpsert_ne _ _ _ h

theorem edgeMapOf_append_singleton (l : List Connection) (x : Connection) :
    edgeMapOf (l ++ [x]) = processEdge (edgeMapOf l) x := by
  unfold edgeMapOf
  rw [List.foldl_append, List.foldl_cons, List.foldl_nil]

theorem edgeFold_lookup (conns : List Connection) (k : String) :
    mapLookup (edgeMapOf conns) k =
      match edgeMatches k conns with
      | [] => none
      | c0 :: _ => some
          { Source := c0.OrigHost, Target := c0.RespHost,
            Protocol := c0.Protocol, Service := c0.Service,
            Count := ((edgeMatches k conns).length : ℤ),
            TotalBytes := ((edgeMatches k conns).map Connection.TotalBytes).sum,
            Weight := (((edgeMatches k conns).map
              Connection.TotalBytes).sum : ℚ) / 1000 } := by
  induction conns using List.reverseRecOn with
  | nil => rfl
  | append_singleton l x ih =>
    rw [edgeMapOf_append_singleton]
    by_cases hk : k = edgeKey x
    · subst hk
      rw [processEdge_lookup_self, ih]
      have hsplit : edgeMatches (edgeKey x) (l ++ [x])
          = edgeMatches (edgeKey x) l ++ [x] := by
        unfold edgeMatches
        rw [List.filter_append]
        simp [List.filter_cons]
      rcases hml : edgeMatches (edgeKey x) l with _ | ⟨c0, t⟩
      · rw [hsplit, hml]
        dsimp only
        simp only [List.nil_append, List.length_cons, List.length_nil,
          List.map_cons, List.map_nil, List.sum_cons, List.sum_nil,
          Option.some.injEq, Edge.mk.injEq]
        norm_num
      · rw [hsplit, hml]
        dsimp only
        simp only [List.cons_append, List.length_cons,
          List.length_append, List.length_nil, List.map_cons, List.map_append,
          List.map_nil, List.sum_cons, List.sum_append, List.sum_nil,
          Option.some.injEq, Edge.mk.injEq]
        refine ⟨trivial, trivial, trivial, trivial, ?_, ?_, ?_⟩
        · push_cast
          ring
        · ring
        · push_cast
          ring_nf
    · rw [processEdge_lookup_ne _ _ hk, ih]
      have hxk : ¬(edgeKey x = k) := fun hh => hk hh.symm
      have hsplit : edgeMatches k (l ++ [x]) = edgeMatches k l := by
        unfold edgeMatches
        rw [List.filter_append]
        simp [List.filter_cons, hxk]
      rw [hsplit]

theorem foldl_prod {α β γ : Type} (F : α × β → γ → α × β) (f : α → γ → α)
    (g : β → γ → β) (hF : ∀ p x, F p x = (f p.1 x, g p.2 x)) :
    ∀ (l : List γ) (a : α) (b : β),
      l.foldl F (a, b) = (l.foldl f a, l.foldl g b)
  | [], _, _ => rfl
  | x :: t, a, b => by
    simp only [List.foldl_cons, hF]
    exact foldl_prod F f g hF t (f a x) (g b x)

theorem buildNodesAndEdges_eq (conns : List Connection) :
    buildNodesAndEdges conns =
      ((nodeMapOf conns).map (fun p => p.2),
       (edgeMapOf conns).map (fun p => p.2)) := by
  simp only [buildNodesAndEdges]
  rw [foldl_prod _
    (fun m conn => processNode (processNode m conn.OrigHost conn.TotalBytes)
      conn.RespHost conn.TotalBytes)
    processEdge (fun p x => rfl) conns [] []]
  rfl

/-- C4 counterexample: the edge key is the `'-'`-joined string, so the two
records with distinct (origin, responder, protocol) triples `("a-b","c",tcp)`
and `("a","b-c",tcp)` collide on the key `"a-b-c-tcp"` and merge into a
single edge, not two distinct ones. -/
theorem C4_counterexample_key_collision :
    cDashA.OrigHost ≠ cDashB.OrigHost
    ∧ edgeKey cDashA = edgeKey cDashB
    ∧ (buildNodesAndEdges [cDashA, cDashB]).2.length = 1 := by
  refine ⟨by decide, by decide, ?_⟩
  decide

/-- C4 (amended): the edge accumulator key is the string
`orig ++ "-" ++ resp ++ "-" ++ proto`; records agreeing on the ordered triple
always accumulate into the same edge, and — provided the host strings contain
no `'-'` — records with distinct triples produce distinct edges (hosts
containing `'-'` can make distinct triples collide); each accumulated edge
carries the protocol and service label of its first-seen record only, its
count and byte total are those of exactly the records with its key, and its
weight is the accumulated byte total divided by 1000. -/
theorem C4_edge_identity_amended :
    (∀ c1 c2 : Connection,
      c1.OrigHost = c2.OrigHost → c1.RespHost = c2.RespHost →
      c1.Protocol = c2.Protocol → edgeKey c1 = edgeKey c2)
    ∧ (∀ c1 c2 : Connection, dashFree c1.OrigHost → dashFree c1.RespHost →
        dashFree c2.OrigHost → dashFree c2.RespHost →
        (edgeKey c1 = edgeKey c2 ↔
          (c1.OrigHost = c2.OrigHost ∧ c1.RespHost = c2.RespHost
            ∧ c1.Protocol = c2.Protocol)))
    ∧ (∀ (conns : List Connection) (k : String) (e : Edge),
        mapLookup (edgeMapOf conns) k = some e →
        ∃ c0 t, edgeMatches k conns = c0 :: t
          ∧ e.Source = c0.OrigHost ∧ e.Target = c0.RespHost
          ∧ e.Protocol = c0.Protocol ∧ e.Service = c0.Service
          ∧ e.Count = ((edgeMatches k conns).length : ℤ)
          ∧ e.TotalBytes = ((edgeMatches k conns).map Connection.TotalBytes).sum
          ∧ e.Weight = ((e.TotalBytes : ℤ) : ℚ) / 1000)
    ∧ (∀ conns : List Connection,
        (buildNodesAndEdges conns).2 = (edgeMapOf conns).map (fun p => p.2)) := by
  refine ⟨?_, ?_, ?_, ?_⟩
  · intro c1 c2 ho hr hp
    unfold edgeKey
    rw [ho, hr, hp]
  · intro c1 c2 h1 h2 h1' h2'
    exact edgeKey_triple_iff c1 c2 h1 h2 h1' h2'
  · intro conns k e he
    have hlook := edgeFold_lookup conns k
    rcases hml : edgeMatches k conns with _ | ⟨c0, t⟩
    · rw [hml] at hlook
      rw [hlook] at he
      cases he
    · rw [hml] at hlook
      rw [hlook] at he
      dsimp only at he
      injection he with he'
      refine ⟨c0, t, rfl, ?_, ?_, ?_, ?_, ?_, ?_, ?_⟩ <;>
        (rw [← he']; try rfl)
  · intro conns
    rw [buildNodesAndEdges_eq]

/-- Witness for C4: for the dash-free example hosts, equal keys coincide with
equal triples. -/
theorem C4_edge_identity_amended_witness :
    edgeKey exConn1 = edgeKey exConn2 :=
  (C4_edge_identity_amended.1 exConn1 exConn2 (by decide) (by decide)
    (by decide))

theorem sorted_ptLE_to_ptLT {l : List TimelinePoint} (hs : l.Sorted ptLE)
    (hnd : (l.map (fun p => p.Timestamp)).Nodup) : l.Sorted ptLT := by
  have hpw : l.Pairwise (fun a b => a.Timestamp ≠ b.Timestamp) :=
    List.pairwise_map.mp hnd
  exact (List.Pairwise.and hs hpw).imp
    (fun h => lt_of_le_of_ne h.1 h.2)

theorem sorted_ptLE_unique {l1 l2 : List TimelinePoint}
    (hperm : List.Perm l1 l2) (hs1 : l1.Sorted ptLE) (hs2 : l2.Sorted ptLE)
    (hnd : (l1.map (fun p => p.Timestamp)).Nodup) : l1 = l2 := by
  have hnd2 : (l2.map (fun p => p.Timestamp)).Nodup :=
    (List.Perm.nodup_iff (List.Perm.map _ hperm)).mp hnd
  exact List.eq_of_perm_of_sorted hperm
    (sorted_ptLE_to_ptLT hs1 hnd) (sorted_ptLE_to_ptLT hs2 hnd2)

theorem timelineMapOf_values_ts_nodup (conns : List Connection) :
    (((timelineMapOf conns).map (fun p => p.2)).map
      (fun p => p.Timestamp)).Nodup := by
  have hinv := bucketFold_invariant (List.insertionSort tsLE conns)
  rw [List.map_map]
  have heq : (timelineMapOf conns).map
      ((fun p : TimelinePoint => p.Timestamp) ∘ (fun p : ℤ × TimelinePoint => p.2))
      = keysOf (timelineMapOf conns) :=
    List.map_congr_left fun p hp => hinv.2 p hp
  rw [heq]
  exact hinv.1

/-- C9: each aggregator is a deterministic pure function of its input record
sequence. The only nondeterminism in the source is the unspecified order of
Go map iteration; the timeline output is identical across any two
enumerations of the bucket accumulator (the final sort by distinct bucket
timestamps cancels the iteration order), the graph's node and edge sequences
are equal as multisets (permutations of each other) across any two
enumerations, and the stats depend only on the current record sequence. -/
theorem C9_aggregators_deterministic :
    (∀ (conns : List Connection) (e1 e2 : List TimelinePoint),
      List.Perm e1 ((timelineMapOf conns).map (fun p => p.2)) →
      List.Perm e2 ((timelineMapOf conns).map (fun p => p.2)) →
      getTimelineWith conns e1 = getTimelineWith conns e2)
    ∧ (∀ (conns : List Connection) (n1 n2 : List (String × Node)),
        List.Perm n1 (nodeMapOf conns) → List.Perm n2 (nodeMapOf conns) →
        List.Perm (n1.map (fun p => p.2)) (n2.map (fun p => p.2)))
    ∧ (∀ (conns : List Connection) (g1 g2 : List (String × Edge)),
        List.Perm g1 (edgeMapOf conns) → List.Perm g2 (edgeMapOf conns) →
        List.Perm (g1.map (fun p => p.2)) (g2.map (fun p => p.2)))
    ∧ (∀ a1 a2 : API, getCurrentConnections a1 = getCurrentConnections a2 →
        getStats a1 = getStats a2) := by
  refine ⟨?_, ?_, ?_, ?_⟩
  · intro conns e1 e2 h1 h2
    unfold getTimelineWith
    by_cases hc : conns.isEmpty = true
    · rw [if_pos hc, if_pos hc]
    · rw [if_neg hc, if_neg hc]
      have hsorteq : List.insertionSort ptLE e1 = List.insertionSort ptLE e2 := by
        apply sorted_ptLE_unique
        · exact ((List.perm_insertionSort ptLE e1).trans
            (h1.trans h2.symm)).trans (List.perm_insertionSort ptLE e2).symm
        · exact List.sorted_insertionSort ptLE e1
        · exact List.sorted_insertionSort ptLE e2
        · apply (List.Perm.nodup_iff
            (List.Perm.map _ (List.perm_insertionSort ptLE e1))).mpr
          apply (List.Perm.nodup_iff (List.Perm.map _ h1)).mpr
          exact timelineMapOf_values_ts_nodup conns
      rw [hsorteq]
  · intro conns n1 n2 h1 h2
    exact List.Perm.map _ (h1.trans h2.symm)
  · intro conns g1 g2 h1 h2
    exact List.Perm.map _ (h1.trans h2.symm)
  · intro a1 a2 h
    unfold getStats
    rw [h]

/-- Witness for C9: the timeline of the two-bucket example is the same for
two opposite enumeration orders of the bucket accumulator. -/
theorem C9_aggregators_deterministic_witness :
    getTimelineWith [exConn1, exConn3]
        [{ Timestamp := 100, Count := 1, Bytes := 10 },
         { Timestamp := 200, Count := 1, Bytes := 7 }]
      = getTimelineWith [exConn1, exConn3]
        [{ Timestamp := 200, Count := 1, Bytes := 7 },
         { Timestamp := 100, Count := 1, Bytes := 10 }] :=
  C9_aggregators_deterministic.1 [exConn1, exConn3] _ _ (by decide) (by decide)

end ZeekViz
